import Mathlib

/-!
Shallow embedding of `src/tcx-interpolate.py`, a single-pass utility that
rewrites the `Time` (and, for TCX, `DistanceMeters`) fields of the trackpoints
of a parsed TCX/GPX course by linear interpolation between a start and an end
timestamp.

Modelling conventions:
* Timestamps are integers counting microseconds (Python `datetime` resolution).
  Python's `timedelta / int` rounds to the nearest microsecond with ties to
  even; `strftime("%Y-%m-%dT%H:%M:%SZ")` drops the microsecond component, so
  the rendered text is determined by the floor of the count of whole seconds.
  We represent the rendered timestamp text by that second count.
* `time_delta` starts as the Python int `0` (line 98) and becomes a
  `timedelta` only when the course has more than one point (line 100); the
  `TDelta` type keeps the two apart, because `start_time + i*time_delta`
  (line 112) raises `TypeError` on `datetime + int` — every single-point
  course crashes there.
* Distance values are IEEE-754 binary64 (`PyFloat`): every `float` the
  script reads, subtracts, adds or writes is a double, and each operation
  rounds to nearest with ties to even (`fl`).
* An XML element (`lxml` `Element`) is a tag, an attribute list, optional
  text and a list of child elements.  Text that the script parses as a number
  is represented by the `Txt.num` constructor carrying the double that
  `float()` returns on it, and a written timestamp by `Txt.time`; all other
  text is opaque.
* A run of the script is a function into `Except PErr Elem`: `.ok` is the
  element written to the output file, `.error` models a Python exception
  propagating to the interpreter, which prints its message and exits with
  status 1 without writing the output file.
-/

namespace TcxInterp

/-- Equality of `Except` results is decidable when it is on both sides. -/
instance {ε α : Type} [DecidableEq ε] [DecidableEq α] :
    DecidableEq (Except ε α) := fun u v =>
  match u, v with
  | .ok a, .ok b =>
    if h : a = b then .isTrue (by rw [h])
    else .isFalse (by intro hc; cases hc; exact h rfl)
  | .error a, .error b =>
    if h : a = b then .isTrue (by rw [h])
    else .isFalse (by intro hc; cases hc; exact h rfl)
  | .ok _, .error _ => .isFalse (by intro hc; cases hc)
  | .error _, .ok _ => .isFalse (by intro hc; cases hc)

/-- CPython's `_divide_and_round` (used by `timedelta / int`):
`q, r = divmod(a, b)`, i.e. floor quotient and remainder, then `q` is
bumped when `2*r > b`, or when `2*r == b` and `q` is odd — rounding to the
nearest multiple with ties to even, for a positive divisor. -/
def divideNearest (a b : Int) : Int :=
  if 2 * Int.fmod a b > b ∨ (2 * Int.fmod a b = b ∧ Int.fdiv a b % 2 = 1)
  then Int.fdiv a b + 1
  else Int.fdiv a b

/-! ### Python floats (IEEE-754 binary64)

The script's distance arithmetic — `float(ed.text)`, `start_dist - v`,
`v + delta` — is double precision.  A finite double is modelled by the
rational it denotes; `inf`, `-inf` and `nan` by dedicated constructors.
`fl` rounds an exact rational to the nearest double: ties to even,
subnormals included, overflow to the infinities.  The sign of zero is not
tracked (the script never distinguishes `0.0` from `-0.0`). -/

/-- A Python `float` value. -/
inductive PyFloat : Type where
  | finite (q : Rat)
  | inf
  | ninf
  | nan
deriving DecidableEq

/-- `2^z` as a rational, for an arbitrary integer exponent. -/
def pow2 (z : Int) : Rat :=
  if 0 ≤ z then ((2 ^ z.toNat : Nat) : Rat) else 1 / ((2 ^ (-z).toNat : Nat) : Rat)

/-- Nearest integer to a rational, ties to even. -/
def roundQ (x : Rat) : Int :=
  divideNearest x.num (x.den : Int)

/-- Floor of `log₂ n` (zero for `n ≤ 1`), by fueled halving: `n` itself is
more than enough fuel, and the recursion is structural on the fuel so that
concrete values reduce in as many steps as `n` has bits. -/
def log2F : Nat → Nat → Nat
  | 0, _ => 0
  | f + 1, n => if n ≤ 1 then 0 else log2F f (n / 2) + 1

/-- `⌊log₂ q⌋` for a positive rational, located from the bit lengths of
numerator and denominator and fixed up by comparison. -/
def floorLog2 (q : Rat) : Int :=
  let a : Int := log2F q.num.toNat q.num.toNat
  let b : Int := log2F q.den q.den
  if pow2 (a - b + 1) ≤ q then a - b + 1
  else if pow2 (a - b) ≤ q then a - b
  else a - b - 1

/-- Round an exact rational to the nearest binary64 value (ties to even):
scale `|q|` so that normal values carry 53 significant bits (subnormals are
cut off at `2^-1074`), round, and overflow to the infinities at `2^1024`. -/
def fl (q : Rat) : PyFloat :=
  if q.num = 0 then .finite 0
  else
    let aq := if q.num < 0 then -q else q
    let e := floorLog2 aq
    let k : Int := if -1022 ≤ e then 52 - e else 1074
    let m := roundQ (aq * pow2 k)
    let av := (m : Rat) * pow2 (-k)
    if pow2 1024 ≤ av then (if q.num < 0 then .ninf else .inf)
    else .finite (if q.num < 0 then -av else av)

/-- Negation of a Python float. -/
def fneg : PyFloat → PyFloat
  | .finite a => .finite (-a)
  | .inf => .ninf
  | .ninf => .inf
  | .nan => .nan

/-- Addition of Python floats: `nan` propagates, opposite infinities give
`nan`, an infinity absorbs, and finite values round. -/
def fadd : PyFloat → PyFloat → PyFloat
  | .nan, _ => .nan
  | _, .nan => .nan
  | .inf, .ninf => .nan
  | .ninf, .inf => .nan
  | .inf, _ => .inf
  | _, .inf => .inf
  | .ninf, _ => .ninf
  | _, .ninf => .ninf
  | .finite a, .finite b => fl (a + b)

/-- Subtraction of Python floats (IEEE `x - y = x + (-y)`). -/
def fsub (a b : PyFloat) : PyFloat :=
  fadd a (fneg b)

/-- Text content of an element.  `num v` stands for a decimal string on
which `float()` returns the double `v`; `time v` stands for a
`strftime`-rendered timestamp whose whole-second count is `v`; `s v` is any
other (opaque) text. -/
inductive Txt : Type where
  | s (v : String)
  | num (v : PyFloat)
  | time (secs : Int)
deriving DecidableEq

/-- An XML element: tag, attributes, optional text, children
(`lxml.etree` element after parsing, comments and PIs ignored). -/
inductive Elem : Type where
  | mk (tag : String) (attrs : List (String × String)) (text : Option Txt)
      (children : List Elem)

/-- Tag of an element. -/
@[simp] def Elem.tag : Elem → String
  | .mk t _ _ _ => t

/-- Attributes of an element. -/
@[simp] def Elem.attrs : Elem → List (String × String)
  | .mk _ a _ _ => a

/-- Text of an element (`Element.text`). -/
@[simp] def Elem.text : Elem → Option Txt
  | .mk _ _ x _ => x

/-- Children of an element. -/
@[simp] def Elem.children : Elem → List Elem
  | .mk _ _ _ c => c

/-- Errors: each constructor stands for a Python exception class that can
propagate out of the script (the spec's error taxonomy names them
`EmptyCourseError`, `MissingFieldError`, ...; the script itself has no named
error classes and lets the exceptions reach the interpreter). -/
inductive PErr : Type where
  | emptyCourse
  | missingField
  | badValue
  | typeError
  | noParent
deriving DecidableEq

/-- The two supported trackpoint dialects (`args.type`, line 51). -/
inductive Dialect : Type where
  | tcx
  | gpx
deriving DecidableEq

/-- Tag of a trackpoint element in each dialect (lines 90-93). -/
def ptTag : Dialect → String
  | .tcx => "Trackpoint"
  | .gpx => "trkpt"

/-- Tag of the time child in each dialect (line 102). -/
def timeKey : Dialect → String
  | .tcx => "Time"
  | .gpx => "time"

/-! ### Dialect selection (lines 54-59)

`args.input.split(".")[-1].lower()`: Python's `str.split(".")` over the
characters of the path, the last component, lowercased (the model lowercases
with `Char.toLower`, which covers the ASCII letters the two dialect names
use). -/

/-- Python `s.split(".")` on a character list: the (always nonempty) list of
maximal chunks separated by `'.'`. -/
def splitDot : List Char → List (List Char)
  | [] => [[]]
  | c :: cs =>
    match splitDot cs with
    | [] => [[]]
    | h :: t => if c = '.' then [] :: h :: t else (c :: h) :: t

/-- The extension used for dialect inference: last `'.'`-separated chunk of
the input path, lowercased (line 56). -/
def extOf (input : String) : String :=
  ⟨((splitDot input.data).getLastD []).map Char.toLower⟩

/-- Classify a dialect name, rejecting anything but `tcx`/`gpx`
(lines 57-59: `exit(1)` on anything else). -/
def classifyType (t : String) : Except PErr Dialect :=
  if t = "tcx" then .ok .tcx
  else if t = "gpx" then .ok .gpx
  else .error .badValue

/-- Dialect selection (lines 54-59): the explicit `-t` override when given
(argparse only admits `"tcx"` and `"gpx"` there), else the lowercased
extension of the input path. -/
def selectDialect (override : Option String) (input : String) :
    Except PErr Dialect :=
  classifyType (match override with
    | some t => t
    | none => extOf input)

/-- Resolution of the optional `-d` start-distance argument
(lines 62-64): defaults to the Python int `0`, whose later mixed
subtraction `0 - float(...)` gives exactly the same double as
`0.0 - float(...)`, so the default is modelled as the float zero. -/
def resolveStartDist (arg : Option PyFloat) : PyFloat :=
  arg.getD (.finite 0)

/-! ### Time arithmetic (lines 96-112) -/

/-- The value of the `time_delta` variable: line 98 initializes it to the
Python **int** `0` (`intZero`), and line 100 replaces it with the
`timedelta` quotient only when there is more than one trackpoint.  The
distinction matters: `start_time + i*time_delta` on line 112 raises
`TypeError` when `time_delta` is still the int (`datetime + int` is not
defined), so every single-point course crashes there. -/
inductive TDelta : Type where
  | intZero
  | td (usecs : Int)
deriving DecidableEq

/-- `time_delta` (lines 97-100): the `timedelta` quotient
`(end_time - start_time) / (n - 1)` in microseconds (Python `timedelta`
division rounds to the nearest microsecond, ties to even) when there is
more than one trackpoint, else the unreplaced int `0`. -/
def timeDelta (s e : Int) (n : Nat) : TDelta :=
  if n > 1 then .td (divideNearest (e - s) ((n : Int) - 1)) else .intZero

/-- The timestamp `start_time + i*time_delta` computed on line 112 when
`time_delta` is a genuine `timedelta` of `delta` microseconds (when it is
still the int `0`, that line raises `TypeError` instead — modelled in
`writeTime`). -/
def interpTime (s delta : Int) (i : Nat) : Int :=
  s + (i : Int) * delta

/-- Whole-second count rendered by
`strftime("%Y-%m-%dT%H:%M:%SZ")` (line 113): microseconds are dropped. -/
def renderSec (t : Int) : Int :=
  Int.fdiv t 1000000

/-! ### Per-point rewriting (lines 104-113)

`p.find(tag)` is the first direct child with the given tag (namespaces have
been stripped already); assigning `el.text` replaces that child's text. -/

/-- `p.find(tag)`: first direct child with the given tag, if any. -/
def findChild (tag : String) (p : Elem) : Option Elem :=
  p.children.find? (fun c => c.tag = tag)

/-- Replace the text of the first element of the list whose tag matches. -/
def setTextFirst (tag : String) (v : Txt) : List Elem → List Elem
  | [] => []
  | c :: cs =>
    if c.tag = tag then Elem.mk c.tag c.attrs (some v) c.children :: cs
    else c :: setTextFirst tag v cs

/-- `p.find(tag).text = v`: set the text of the first child with the tag. -/
def setChildText (tag : String) (v : Txt) (p : Elem) : Elem :=
  Elem.mk p.tag p.attrs p.text (setTextFirst tag v p.children)

/-- The time half of the loop body (lines 110-113), for point index `i`:
`et = p.find(time_key)` (line 110, never raises by itself); then line 112
computes `start_time + i*time_delta`, which raises `TypeError` when
`time_delta` is still the int `0` (`intZero`); then line 113 assigns
`et.text` — `AttributeError` (modelled `missingField`) when `et` is `None`,
else the rendered timestamp is written.  The distance delta is threaded
through unchanged. -/
def writeTime (d : Dialect) (td : TDelta) (s : Int) (i : Nat)
    (dd : Option PyFloat) (p : Elem) : Except PErr (Elem × Option PyFloat) :=
  match td with
  | .intZero => .error .typeError
  | .td delta =>
    match findChild (timeKey d) p with
    | none => .error .missingField
    | some _ =>
      .ok (setChildText (timeKey d)
        (.time (renderSec (interpTime s delta i))) p, dd)

/-- One iteration of the rewrite loop (lines 104-113) for the point `p` at
index `i`.  For TCX: `ed = p.find("DistanceMeters")` (`None` gives
`AttributeError`, modelled `missingField`); `float(ed.text)` (non-numeric
or absent text raises, modelled `badValue`); on the first point
(`dd = none`) the delta becomes the double `start_dist - float(ed.text)`;
the new distance text is the double `float(ed.text) + delta`.  Then the
time field is written.  For GPX only the time field is written. -/
def rewritePoint (d : Dialect) (sd : PyFloat) (td : TDelta) (s : Int)
    (i : Nat) (dd : Option PyFloat) (p : Elem) :
    Except PErr (Elem × Option PyFloat) :=
  match d with
  | .tcx =>
    match findChild "DistanceMeters" p with
    | none => .error .missingField
    | some ed =>
      match ed.text with
      | some (.num v) =>
        let delta := dd.getD (fsub sd v)
        writeTime .tcx td s i (some delta)
          (setChildText "DistanceMeters" (.num (fadd v delta)) p)
      | _ => .error .badValue
  | .gpx => writeTime .gpx td s i dd p

/-- The rewrite loop (lines 104-113) over the list of trackpoints, from
index `i` on, threading the distance delta and stopping at the first raised
exception. -/
def processPoints (d : Dialect) (sd : PyFloat) (s : Int) (td : TDelta) :
    Nat → Option PyFloat → List Elem → Except PErr (List Elem)
  | _, _, [] => .ok []
  | i, dd, p :: ps =>
    match rewritePoint d sd td s i dd p with
    | .error e => .error e
    | .ok (p', dd') =>
      match processPoints d sd s td (i + 1) dd' ps with
      | .error e => .error e
      | .ok ps' => .ok (p' :: ps')

/-! ### Tree traversals (lines 81-94)

Namespace stripping rewrites every element tag to the part after its first
`'}'` (Python `tag.find('}')` and slicing, lines 82-86); `//Trackpoint`
collects every matching descendant-or-self element in document order;
`trackpoints[0].getparent()` is the parent of the first match. -/

/-- Characters after the first `'}'`, if there is one. -/
def afterBrace : List Char → Option (List Char)
  | [] => none
  | c :: cs => if c = '}' then some cs else afterBrace cs

/-- `i = tag.find('}'); if i > -1: tag = tag[i+1:]` (lines 84-86). -/
def stripNSName (s : String) : String :=
  match afterBrace s.data with
  | some r => ⟨r⟩
  | none => s

mutual

/-- Namespace stripping over the whole tree (lines 82-86). -/
def stripNS : Elem → Elem
  | .mk t a x cs => .mk (stripNSName t) a x (stripNSL cs)

/-- `stripNS` on each element of a list. -/
def stripNSL : List Elem → List Elem
  | [] => []
  | c :: cs => stripNS c :: stripNSL cs

end

mutual

/-- `//tag`: every descendant-or-self element with the given tag, in
document order (lines 91-93). -/
def findAll (tag : String) : Elem → List Elem
  | .mk t a x cs =>
    (if t = tag then [Elem.mk t a x cs] else []) ++ findAllL tag cs

/-- `findAll` over a forest, in order. -/
def findAllL (tag : String) : List Elem → List Elem
  | [] => []
  | c :: cs => findAll tag c ++ findAllL tag cs

end

mutual

/-- Parent of the first descendant-or-self element carrying the tag, in
document order (`trackpoints[0].getparent()`, line 94); `none` when there
is no match or the first match is the root itself. -/
def parentOfFirst (tag : String) : Elem → Option Elem
  | .mk t a x cs =>
    if t = tag then none else parentAux tag (Elem.mk t a x cs) cs

/-- Helper for `parentOfFirst`: scan a forest for the first match, with
`par` the parent of the forest's roots. -/
def parentAux (tag : String) (par : Elem) : List Elem → Option Elem
  | [] => none
  | c :: cs =>
    if c.tag = tag then some par
    else
      match parentOfFirst tag c with
      | some p => some p
      | none => parentAux tag par cs

end

mutual

/-- In-place mutation of every matching trackpoint of the tree, in document
order, threading the running index and distance delta exactly as the loop
over the `xpath` result does: the `xpath` list is the preorder list of
matches and its elements are shared with the tree, so mutating them mutates
the tree.  Each iteration of the source loop reads and writes only the
matched point's first `DistanceMeters`/`Time` children; distinct matches
have disjoint such children (every element has a unique parent), and the
iterations over the matches nested below a point never touch the point's
own direct children.  The model therefore first runs the loop body on the
matched node as parsed (same reads, same raised exceptions, same delta),
then rewrites the nested matches, then runs the loop body again to apply
the point's own field writes on top of the rewritten children — the second
run sees the same tags and direct-child texts, so it takes the same branch
and writes the same values. -/
def rewriteTree (d : Dialect) (sd : PyFloat) (s : Int) (td : TDelta) :
    Elem → (Nat × Option PyFloat) →
    Except PErr (Elem × (Nat × Option PyFloat))
  | .mk t a x cs, st =>
    if t = ptTag d then
      match rewritePoint d sd td s st.1 st.2 (.mk t a x cs) with
      | .error er => .error er
      | .ok (_, dd') =>
        match rewriteList d sd s td cs (st.1 + 1, dd') with
        | .error er => .error er
        | .ok (cs', st') =>
          match rewritePoint d sd td s st.1 st.2 (.mk t a x cs') with
          | .error er => .error er
          | .ok (p'', _) => .ok (p'', st')
    else
      match rewriteList d sd s td cs st with
      | .error er => .error er
      | .ok (cs', st') => .ok (Elem.mk t a x cs', st')

/-- `rewriteTree` over a forest, left to right. -/
def rewriteList (d : Dialect) (sd : PyFloat) (s : Int) (td : TDelta) :
    List Elem → (Nat × Option PyFloat) →
    Except PErr (List Elem × (Nat × Option PyFloat))
  | [], st => .ok ([], st)
  | c :: rest, st =>
    match rewriteTree d sd s td c st with
    | .error er => .error er
    | .ok (c', st') =>
      match rewriteList d sd s td rest st' with
      | .error er => .error er
      | .ok (rest', st'') => .ok (c' :: rest', st'')

end

/-- The whole run of the script on a parsed input tree (lines 81-117):
strip namespaces, collect every matching trackpoint of the document
(`trackpoints[0]` raises `IndexError` on an empty course, line 94, before
any output is produced), compute the time step, rewrite every trackpoint in
place, and write the parent element of the first trackpoint. -/
def run (d : Dialect) (s e : Int) (sdArg : Option PyFloat) (tree : Elem) :
    Except PErr Elem :=
  let root := stripNS tree
  match findAll (ptTag d) root with
  | [] => .error .emptyCourse
  | tps =>
    match rewriteTree d (resolveStartDist sdArg) s
        (timeDelta s e tps.length) root (0, none) with
    | .error er => .error er
    | .ok (root', _) =>
      match parentOfFirst (ptTag d) root' with
      | some track => .ok track
      | none => .error .noParent

/-! ### Observation helpers -/

/-- The whole-second count stored in the time child of a point, if any. -/
def timeSecOf (d : Dialect) (p : Elem) : Option Int :=
  match findChild (timeKey d) p with
  | some c =>
    match c.text with
    | some (.time v) => some v
    | _ => none
  | none => none

/-- The numeric value stored in the `DistanceMeters` child of a point,
if any (`float(p.find("DistanceMeters").text)` when it succeeds). -/
def distValOf (p : Elem) : Option PyFloat :=
  match findChild "DistanceMeters" p with
  | some c =>
    match c.text with
    | some (.num v) => some v
    | _ => none
  | none => none

/-! ### Predicates and auxiliary definitions used by the statements -/

/-- The point has a time child for its dialect. -/
def hasTime (d : Dialect) (p : Elem) : Bool :=
  (findChild (timeKey d) p).isSome

/-- The point has every field its dialect reads and writes: a time child,
and for TCX a `DistanceMeters` child with numeric text. -/
def wfPoint (d : Dialect) (p : Elem) : Bool :=
  hasTime d p && (d == Dialect.gpx || (distValOf p).isSome)

/-- The point lacks a field in the way that raises `AttributeError` in the
loop body: for TCX a missing `DistanceMeters` child, or a missing time
child reached after the distance processing succeeded. -/
def missesField (d : Dialect) (p : Elem) : Prop :=
  (d = .tcx ∧ findChild "DistanceMeters" p = none) ∨
    (findChild (timeKey d) p = none ∧ (d = .tcx → (distValOf p).isSome))

/-- Framing relation between a child of an input point and the same-position
child of the output point: everything is preserved except possibly the text
of a time child (or, for TCX, of a `DistanceMeters` child). -/
def childFrame (d : Dialect) (c c' : Elem) : Prop :=
  c'.tag = c.tag ∧ c'.attrs = c.attrs ∧ c'.children = c.children ∧
    ((c.tag ≠ timeKey d ∧ (d = .tcx → c.tag ≠ "DistanceMeters")) →
      c'.text = c.text)

/-- Framing relation between an input point and the corresponding output
point of the rewrite loop: tag, attributes, own text and the whole child
list are preserved, except possibly the texts of the dialect's time and
distance children. -/
def pointFrame (d : Dialect) (p p' : Elem) : Prop :=
  p'.tag = p.tag ∧ p'.attrs = p.attrs ∧ p'.text = p.text ∧
    List.Forall₂ (childFrame d) p.children p'.children

mutual

/-- The tree with every text erased: the tag/attribute/shape skeleton,
which the rewrite never changes. -/
def eraseTexts : Elem → Elem
  | .mk t a _ cs => .mk t a none (eraseTextsL cs)

/-- `eraseTexts` on each element of a forest. -/
def eraseTextsL : List Elem → List Elem
  | [] => []
  | c :: cs => eraseTexts c :: eraseTextsL cs

end

/-- `'}'` does not occur in the string. -/
def noBrace (s : String) : Bool :=
  !(s.data.contains '}')

mutual

/-- Every tag of the tree is free of `'}'` (a document written without
namespace qualification). -/
def cleanTags : Elem → Bool
  | .mk t _ _ cs => noBrace t && cleanTagsL cs

/-- `cleanTags` over a forest. -/
def cleanTagsL : List Elem → Bool
  | [] => true
  | c :: cs => cleanTags c && cleanTagsL cs

end

mutual

/-- The same document with every element tag namespace-qualified in the
serialized `lxml` form `{uri}localname`. -/
def addNS (u : String) : Elem → Elem
  | .mk t a x cs => .mk ("\x7b" ++ u ++ "\x7d" ++ t) a x (addNSL u cs)

/-- `addNS` over a forest. -/
def addNSL (u : String) : List Elem → List Elem
  | [] => []
  | c :: cs => addNS u c :: addNSL u cs

end

/-- Modelled from the spec: "extract the ordered list of Points belonging
to the first track/segment found" — the points below the container of the
first point of the (namespace-stripped) document.  The script itself has no
such function; this definition exists only to compare the spec's description
of the extraction with what the code does. -/
def specFirstSegmentPoints (d : Dialect) (tree : Elem) : Option (List Elem) :=
  (parentOfFirst (ptTag d) (stripNS tree)).map
    (fun par => findAllL (ptTag d) par.children)

/-! ### Concrete inputs used by witnesses and counterexamples -/

/-- A TCX trackpoint with the given (finite double) distance text and an
opaque time text. -/
def tcxPt (dist : Rat) : Elem :=
  .mk "Trackpoint" [] none
    [.mk "DistanceMeters" [] (some (.num (.finite dist))) [],
     .mk "Time" [] (some (.s "orig")) []]

/-- A GPX trackpoint with position attributes and an opaque time text. -/
def gpxPt : Elem :=
  .mk "trkpt" [("lat", "1.0"), ("lon", "2.0")] none
    [.mk "ele" [] (some (.s "12")) [],
     .mk "time" [] (some (.s "orig")) []]

/-- `gpxPt` after its time text has been rewritten to second count `w`. -/
def gpxPtAt (w : Int) : Elem :=
  .mk "trkpt" [("lat", "1.0"), ("lon", "2.0")] none
    [.mk "ele" [] (some (.s "12")) [],
     .mk "time" [] (some (.time w)) []]

/-- `tcxPt` after its distance and time texts have been rewritten. -/
def tcxPtAt (dist : Rat) (w : Int) : Elem :=
  .mk "Trackpoint" [] none
    [.mk "DistanceMeters" [] (some (.num (.finite dist))) [],
     .mk "Time" [] (some (.time w)) []]

/-- A small namespace-free TCX course document. -/
def plainDoc : Elem :=
  .mk "Course" [] none
    [.mk "Name" [] (some (.s "c")) [],
     .mk "Track" [] none [tcxPt 100, tcxPt 150]]

/-- A document with two tracks: two trackpoints in the first track and one
more in a second track. -/
def twoTrackDoc : Elem :=
  .mk "Courses" [] none
    [.mk "Track" [("id", "1")] none [tcxPt 100, tcxPt 150],
     .mk "Track" [("id", "2")] none [tcxPt 200]]

/-- The output the script writes for `plainDoc` with start distance `351`
over `[0s, 10s]`: the `Track` element with both points rewritten. -/
def plainTrackOut : Elem :=
  .mk "Track" [] none [tcxPtAt 351 0, tcxPtAt 401 10]

/-! ## Helper lemmas -/

theorem findChild_mk (t : String) (a : List (String × String))
    (x : Option Txt) (cs : List Elem) (tag : String) :
    findChild tag (.mk t a x cs) = cs.find? (fun c => c.tag = tag) := rfl

theorem setTextFirst_find_same (tag : String) (v : Txt) :
    ∀ (cs : List Elem) (c : Elem),
      cs.find? (fun c => c.tag = tag) = some c →
      (setTextFirst tag v cs).find? (fun c => c.tag = tag) =
        some (Elem.mk c.tag c.attrs (some v) c.children) := by
  intro cs
  induction cs with
  | nil => intro c h; exact absurd h (by simp)
  | cons hd tl ih =>
    intro c h
    cases hd with
    | mk ht ha hx hc =>
      by_cases hhd : ht = tag
      · rw [List.find?_cons_of_pos _ (by simp [hhd])] at h
        cases h
        simp only [setTextFirst, Elem.tag, Elem.attrs, Elem.children,
          if_pos hhd]
        rw [List.find?_cons_of_pos _ (by simp [hhd])]
      · rw [List.find?_cons_of_neg _ (by simp [hhd])] at h
        simp only [setTextFirst, Elem.tag, if_neg hhd]
        rw [List.find?_cons_of_neg _ (by simp [hhd])]
        exact ih c h

theorem setTextFirst_find_ne {tag tag' : String} (v : Txt)
    (hne : tag' ≠ tag) :
    ∀ cs : List Elem,
      (setTextFirst tag v cs).find? (fun c => c.tag = tag') =
        cs.find? (fun c => c.tag = tag') := by
  intro cs
  induction cs with
  | nil => rfl
  | cons hd tl ih =>
    cases hd with
    | mk ht ha hx hc =>
      by_cases hhd : ht = tag
      · have hne' : ¬ht = tag' := by rw [hhd]; exact fun h => hne h.symm
        simp only [setTextFirst, Elem.tag, Elem.attrs, Elem.children,
          if_pos hhd]
        rw [List.find?_cons_of_neg _ (by simp [hne']),
          List.find?_cons_of_neg _ (by simp [hne'])]
      · simp only [setTextFirst, Elem.tag, if_neg hhd]
        by_cases hh' : ht = tag'
        · rw [List.find?_cons_of_pos _ (by simp [hh']),
            List.find?_cons_of_pos _ (by simp [hh'])]
        · rw [List.find?_cons_of_neg _ (by simp [hh']),
            List.find?_cons_of_neg _ (by simp [hh'])]
          exact ih

theorem findChild_setChildText_same {tag : String} {p c : Elem} (v : Txt)
    (h : findChild tag p = some c) :
    findChild tag (setChildText tag v p) =
      some (Elem.mk c.tag c.attrs (some v) c.children) := by
  cases p with
  | mk t a x cs => exact setTextFirst_find_same tag v cs c h

theorem findChild_setChildText_ne {tag tag' : String} (v : Txt) (p : Elem)
    (hne : tag' ≠ tag) :
    findChild tag' (setChildText tag v p) = findChild tag' p := by
  cases p with
  | mk t a x cs => exact setTextFirst_find_ne v hne cs

theorem setChildText_tag (tag : String) (v : Txt) (p : Elem) :
    (setChildText tag v p).tag = p.tag := by
  cases p with
  | mk t a x cs => rfl

theorem setChildText_attrs (tag : String) (v : Txt) (p : Elem) :
    (setChildText tag v p).attrs = p.attrs := by
  cases p with
  | mk t a x cs => rfl

theorem setChildText_text (tag : String) (v : Txt) (p : Elem) :
    (setChildText tag v p).text = p.text := by
  cases p with
  | mk t a x cs => rfl

theorem distValOf_iff {p : Elem} {v : PyFloat} :
    distValOf p = some v ↔
      ∃ ed, findChild "DistanceMeters" p = some ed ∧
        ed.text = some (.num v) := by
  unfold distValOf
  cases hfc : findChild "DistanceMeters" p with
  | none => simp
  | some ed =>
    cases ed with
    | mk t a x cs =>
      cases x with
      | none => simp [Elem.text]
      | some tx =>
        cases tx with
        | s w => simp [Elem.text]
        | num w =>
          simp only [Elem.text, Option.some.injEq, Elem.mk.injEq]
          constructor
          · intro h
            exact ⟨.mk t a (some (.num w)) cs, rfl, by rw [h]⟩
          · rintro ⟨ed', he, hx⟩
            cases he
            simp only [Elem.text, Option.some.injEq, Txt.num.injEq] at hx
            rw [hx]
        | time w => simp [Elem.text]

theorem writeTime_intZero {d : Dialect} (s : Int) (i : Nat)
    (dd : Option PyFloat) (p : Elem) :
    writeTime d .intZero s i dd p = .error .typeError := rfl

theorem writeTime_none {d : Dialect} {p : Elem} (delta s : Int) (i : Nat)
    (dd : Option PyFloat) (h : findChild (timeKey d) p = none) :
    writeTime d (.td delta) s i dd p = .error .missingField := by
  simp [writeTime, h]

theorem writeTime_some {d : Dialect} {p c : Elem} (delta s : Int) (i : Nat)
    (dd : Option PyFloat) (h : findChild (timeKey d) p = some c) :
    writeTime d (.td delta) s i dd p =
      .ok (setChildText (timeKey d)
        (.time (renderSec (interpTime s delta i))) p, dd) := by
  simp [writeTime, h]

theorem rewritePoint_gpx (sd : PyFloat) (td : TDelta) (s : Int) (i : Nat)
    (dd : Option PyFloat) (p : Elem) :
    rewritePoint .gpx sd td s i dd p = writeTime .gpx td s i dd p := rfl

theorem rewritePoint_tcx_noDist {p : Elem} (sd : PyFloat) (td : TDelta)
    (s : Int) (i : Nat) (dd : Option PyFloat)
    (h : findChild "DistanceMeters" p = none) :
    rewritePoint .tcx sd td s i dd p = .error .missingField := by
  simp [rewritePoint, h]

theorem rewritePoint_tcx_dist {p ed : Elem} {v : PyFloat} (sd : PyFloat)
    (td : TDelta) (s : Int) (i : Nat) (dd : Option PyFloat)
    (hf : findChild "DistanceMeters" p = some ed)
    (hx : ed.text = some (.num v)) :
    rewritePoint .tcx sd td s i dd p =
      writeTime .tcx td s i (some (dd.getD (fsub sd v)))
        (setChildText "DistanceMeters"
          (.num (fadd v (dd.getD (fsub sd v)))) p) := by
  cases ed with
  | mk t' a' x' cs' =>
    simp only [Elem.text] at hx
    simp [rewritePoint, hf, hx]

theorem childFrame_refl (d : Dialect) (c : Elem) : childFrame d c c :=
  ⟨rfl, rfl, rfl, fun _ => rfl⟩

theorem childFrame_trans {d : Dialect} {a b c : Elem}
    (h1 : childFrame d a b) (h2 : childFrame d b c) : childFrame d a c := by
  obtain ⟨t1, a1, c1, x1⟩ := h1
  obtain ⟨t2, a2, c2, x2⟩ := h2
  refine ⟨t2.trans t1, a2.trans a1, c2.trans c1, fun hg => ?_⟩
  have hg' : b.tag ≠ timeKey d ∧ (d = .tcx → b.tag ≠ "DistanceMeters") := by
    rw [t1]; exact hg
  exact (x2 hg').trans (x1 hg)

theorem forall₂_childFrame_refl (d : Dialect) (cs : List Elem) :
    List.Forall₂ (childFrame d) cs cs := by
  induction cs with
  | nil => exact List.Forall₂.nil
  | cons c rest ih => exact List.Forall₂.cons (childFrame_refl d c) ih

theorem forall₂_childFrame_trans {d : Dialect} :
    ∀ {l1 l2 l3 : List Elem}, List.Forall₂ (childFrame d) l1 l2 →
      List.Forall₂ (childFrame d) l2 l3 →
      List.Forall₂ (childFrame d) l1 l3 := by
  intro l1 l2 l3 h1
  induction h1 generalizing l3 with
  | nil => intro h2; cases h2; exact List.Forall₂.nil
  | cons hab hrest ih =>
    intro h2
    cases h2 with
    | cons hbc hrest2 =>
      exact List.Forall₂.cons (childFrame_trans hab hbc) (ih hrest2)

theorem setTextFirst_forall₂ {d : Dialect} {tag : String} (v : Txt)
    (htag : tag = timeKey d ∨ (d = .tcx ∧ tag = "DistanceMeters")) :
    ∀ cs : List Elem, List.Forall₂ (childFrame d) cs (setTextFirst tag v cs) := by
  intro cs
  induction cs with
  | nil => exact List.Forall₂.nil
  | cons hd tl ih =>
    cases hd with
    | mk ht ha hx hc =>
      by_cases hhd : ht = tag
      · simp only [setTextFirst, Elem.tag, if_pos hhd]
        refine List.Forall₂.cons ⟨rfl, rfl, rfl, fun hg => ?_⟩
          (forall₂_childFrame_refl d tl)
        exfalso
        simp only [Elem.tag] at hg
        rcases htag with h | ⟨hd', h⟩
        · exact hg.1 (hhd.trans h)
        · exact hg.2 hd' (hhd.trans h)
      · simp only [setTextFirst, Elem.tag, if_neg hhd]
        exact List.Forall₂.cons (childFrame_refl d _) ih

theorem pointFrame_refl (d : Dialect) (p : Elem) : pointFrame d p p :=
  ⟨rfl, rfl, rfl, forall₂_childFrame_refl d _⟩

theorem pointFrame_trans {d : Dialect} {a b c : Elem}
    (h1 : pointFrame d a b) (h2 : pointFrame d b c) : pointFrame d a c := by
  obtain ⟨t1, a1, x1, f1⟩ := h1
  obtain ⟨t2, a2, x2, f2⟩ := h2
  exact ⟨t2.trans t1, a2.trans a1, x2.trans x1, forall₂_childFrame_trans f1 f2⟩

theorem pointFrame_setChildText {d : Dialect} {tag : String} (v : Txt)
    (p : Elem)
    (htag : tag = timeKey d ∨ (d = .tcx ∧ tag = "DistanceMeters")) :
    pointFrame d p (setChildText tag v p) := by
  cases p with
  | mk t a x cs =>
    exact ⟨rfl, rfl, rfl, setTextFirst_forall₂ v htag cs⟩

/-! ### Inversion lemmas for the loop body -/

theorem rewritePoint_gpx_ok_inv {sd : PyFloat} {delta s : Int} {i : Nat}
    {dd : Option PyFloat} {p p' : Elem} {dd' : Option PyFloat}
    (h : rewritePoint .gpx sd (.td delta) s i dd p = .ok (p', dd')) :
    (findChild "time" p).isSome ∧ dd' = dd ∧
      p' = setChildText "time"
        (.time (renderSec (interpTime s delta i))) p := by
  rw [rewritePoint_gpx] at h
  cases hg : findChild (timeKey .gpx) p with
  | none =>
    rw [writeTime_none delta s i dd hg] at h
    exact absurd h (by simp)
  | some c =>
    rw [writeTime_some delta s i dd hg] at h
    simp only [Except.ok.injEq, Prod.mk.injEq] at h
    exact ⟨by simp [show findChild "time" p = some c from hg],
      h.2.symm, h.1.symm⟩

theorem rewritePoint_tcx_ok_inv {sd : PyFloat} {delta s : Int} {i : Nat}
    {dd : Option PyFloat} {p p' : Elem} {dd' : Option PyFloat}
    (h : rewritePoint .tcx sd (.td delta) s i dd p = .ok (p', dd')) :
    ∃ ed v, findChild "DistanceMeters" p = some ed ∧
      ed.text = some (.num v) ∧
      dd' = some (dd.getD (fsub sd v)) ∧
      p' = setChildText "Time" (.time (renderSec (interpTime s delta i)))
        (setChildText "DistanceMeters"
          (.num (fadd v (dd.getD (fsub sd v)))) p) := by
  cases hfc : findChild "DistanceMeters" p with
  | none =>
    rw [rewritePoint_tcx_noDist sd (.td delta) s i dd hfc] at h
    exact absurd h (by simp)
  | some ed =>
    cases ed with
    | mk te ae xe ce =>
      cases xe with
      | none => simp [rewritePoint, hfc] at h
      | some tx =>
        cases tx with
        | s w => simp [rewritePoint, hfc] at h
        | time w => simp [rewritePoint, hfc] at h
        | num v =>
          rw [@rewritePoint_tcx_dist p (.mk te ae (some (.num v)) ce) v
            sd (.td delta) s i dd hfc rfl] at h
          cases hg : findChild (timeKey .tcx)
              (setChildText "DistanceMeters"
                (.num (fadd v (dd.getD (fsub sd v)))) p) with
          | none =>
            rw [writeTime_none delta s i (some (dd.getD (fsub sd v))) hg] at h
            exact absurd h (by simp)
          | some c =>
            rw [writeTime_some delta s i (some (dd.getD (fsub sd v))) hg] at h
            simp only [Except.ok.injEq, Prod.mk.injEq] at h
            exact ⟨.mk te ae (some (.num v)) ce, v, rfl, rfl,
              h.2.symm, h.1.symm⟩

theorem rewritePoint_ok_td {d : Dialect} {sd : PyFloat} {td : TDelta}
    {s : Int} {i : Nat} {dd : Option PyFloat} {p : Elem}
    {pr : Elem × Option PyFloat}
    (h : rewritePoint d sd td s i dd p = .ok pr) :
    ∃ delta, td = .td delta := by
  cases td with
  | td delta => exact ⟨delta, rfl⟩
  | intZero =>
    exfalso
    cases d with
    | gpx =>
      rw [rewritePoint_gpx, writeTime_intZero] at h
      exact absurd h (by simp)
    | tcx =>
      cases hfc : findChild "DistanceMeters" p with
      | none =>
        rw [rewritePoint_tcx_noDist sd .intZero s i dd hfc] at h
        exact absurd h (by simp)
      | some ed =>
        cases ed with
        | mk te ae xe ce =>
          cases xe with
          | none => simp [rewritePoint, hfc] at h
          | some tx =>
            cases tx with
            | s w => simp [rewritePoint, hfc] at h
            | time w => simp [rewritePoint, hfc] at h
            | num v =>
              rw [@rewritePoint_tcx_dist p (.mk te ae (some (.num v)) ce) v
                sd .intZero s i dd hfc rfl, writeTime_intZero] at h
              exact absurd h (by simp)

theorem timeSecOf_setChildText {d : Dialect} {p c : Elem} (w : Int)
    (h : findChild (timeKey d) p = some c) :
    timeSecOf d (setChildText (timeKey d) (.time w) p) = some w := by
  have h2 := findChild_setChildText_same (Txt.time w) h
  unfold timeSecOf
  rw [h2]
  simp [Elem.text]

theorem rewritePoint_ok_time {d : Dialect} {sd : PyFloat} {delta s : Int}
    {i : Nat} {dd : Option PyFloat} {p p' : Elem} {dd' : Option PyFloat}
    (h : rewritePoint d sd (.td delta) s i dd p = .ok (p', dd')) :
    timeSecOf d p' = some (renderSec (interpTime s delta i)) := by
  cases d with
  | tcx =>
    obtain ⟨ed, v, hfc, hx, hdd, hp⟩ := rewritePoint_tcx_ok_inv h
    subst hp
    have hsome : (findChild (timeKey .tcx)
        (setChildText "DistanceMeters"
          (.num (fadd v (dd.getD (fsub sd v)))) p)).isSome := by
      by_contra hno
      rw [Option.not_isSome_iff_eq_none] at hno
      rw [rewritePoint_tcx_dist sd (.td delta) s i dd hfc hx,
        writeTime_none delta s i _ hno] at h
      exact absurd h (by simp)
    obtain ⟨c, hc⟩ := Option.isSome_iff_exists.mp hsome
    exact timeSecOf_setChildText (renderSec (interpTime s delta i)) hc
  | gpx =>
    obtain ⟨hsome, hdd, hp⟩ := rewritePoint_gpx_ok_inv h
    subst hp
    obtain ⟨c, hc⟩ := Option.isSome_iff_exists.mp hsome
    exact timeSecOf_setChildText (renderSec (interpTime s delta i)) hc

theorem distValOf_of_findChild {p ed : Elem} {v : PyFloat}
    (hfc : findChild "DistanceMeters" p = some ed)
    (hx : ed.text = some (.num v)) : distValOf p = some v :=
  distValOf_iff.mpr ⟨ed, hfc, hx⟩

theorem rewritePoint_frame {d : Dialect} {sd : PyFloat} {td : TDelta}
    {s : Int} {i : Nat} {dd : Option PyFloat} {p p' : Elem}
    {dd' : Option PyFloat}
    (h : rewritePoint d sd td s i dd p = .ok (p', dd')) :
    pointFrame d p p' := by
  obtain ⟨delta, hdel⟩ := rewritePoint_ok_td h
  subst hdel
  cases d with
  | tcx =>
    obtain ⟨ed, v, hfc, hx, hdd, hp⟩ := rewritePoint_tcx_ok_inv h
    subst hp
    exact pointFrame_trans
      (pointFrame_setChildText _ _ (Or.inr ⟨rfl, rfl⟩))
      (pointFrame_setChildText _ _ (Or.inl rfl))
  | gpx =>
    obtain ⟨hsome, hdd, hp⟩ := rewritePoint_gpx_ok_inv h
    subst hp
    exact pointFrame_setChildText _ _ (Or.inl rfl)

theorem rewritePoint_tcx_ok_dist {sd : PyFloat} {td : TDelta} {s : Int}
    {i : Nat} {dd : Option PyFloat} {p p' : Elem} {dd' : Option PyFloat}
    {v : PyFloat}
    (h : rewritePoint .tcx sd td s i dd p = .ok (p', dd'))
    (hv : distValOf p = some v) :
    distValOf p' = some (fadd v (dd.getD (fsub sd v))) ∧
      dd' = some (dd.getD (fsub sd v)) := by
  obtain ⟨delta, hdel⟩ := rewritePoint_ok_td h
  subst hdel
  obtain ⟨ed, v0, hfc, hx, hdd, hp⟩ := rewritePoint_tcx_ok_inv h
  have hv0 : distValOf p = some v0 := distValOf_of_findChild hfc hx
  have hvv : v = v0 := by rw [hv] at hv0; exact Option.some.inj hv0
  subst hvv
  subst hp
  refine ⟨?_, hdd⟩
  have h1 : findChild "DistanceMeters"
      (setChildText "Time" (.time (renderSec (interpTime s delta i)))
        (setChildText "DistanceMeters"
          (.num (fadd v (dd.getD (fsub sd v)))) p)) =
      findChild "DistanceMeters"
        (setChildText "DistanceMeters"
          (.num (fadd v (dd.getD (fsub sd v)))) p) :=
    findChild_setChildText_ne _ _ (by decide)
  have h2 := findChild_setChildText_same
    (Txt.num (fadd v (dd.getD (fsub sd v)))) hfc
  exact distValOf_iff.mpr ⟨_, h1.trans h2, rfl⟩

theorem rewritePoint_ok_wf {d : Dialect} {sd : PyFloat} {td : TDelta}
    {s : Int} {i : Nat} {dd : Option PyFloat} {p p' : Elem}
    {dd' : Option PyFloat}
    (h : rewritePoint d sd td s i dd p = .ok (p', dd')) :
    wfPoint d p = true := by
  obtain ⟨delta, hdel⟩ := rewritePoint_ok_td h
  subst hdel
  cases d with
  | tcx =>
    obtain ⟨ed, v, hfc, hx, hdd, hp⟩ := rewritePoint_tcx_ok_inv h
    have hdist : (distValOf p).isSome := by
      rw [distValOf_of_findChild hfc hx]; rfl
    have htime : (findChild "Time" p).isSome := by
      by_contra hno
      rw [Option.not_isSome_iff_eq_none] at hno
      have hno' : findChild (timeKey .tcx)
          (setChildText "DistanceMeters"
            (.num (fadd v (dd.getD (fsub sd v)))) p) = none := by
        rw [show timeKey .tcx = "Time" from rfl,
          findChild_setChildText_ne _ _ (by decide)]
        exact hno
      rw [rewritePoint_tcx_dist sd (.td delta) s i dd hfc hx,
        writeTime_none delta s i _ hno'] at h
      exact absurd h (by simp)
    simp [wfPoint, hasTime, timeKey, htime, hdist]
  | gpx =>
    obtain ⟨hsome, hdd, hp⟩ := rewritePoint_gpx_ok_inv h
    simp [wfPoint, hasTime, timeKey, hsome]

theorem rewritePoint_ok_of_wf {d : Dialect} {q : Elem} (sd : PyFloat)
    (delta s : Int) (i : Nat) (dd : Option PyFloat)
    (h : wfPoint d q = true) :
    ∃ q' dd2, rewritePoint d sd (.td delta) s i dd q = .ok (q', dd2) := by
  cases d with
  | tcx =>
    simp only [wfPoint, hasTime, Bool.and_eq_true, Bool.or_eq_true] at h
    have hdist : (distValOf q).isSome := by
      rcases h.2 with h2 | h2
      · exact absurd h2 (by simp)
      · exact h2
    obtain ⟨v, hv⟩ := Option.isSome_iff_exists.mp hdist
    obtain ⟨ed, hfc, hx⟩ := distValOf_iff.mp hv
    obtain ⟨c, hc⟩ := Option.isSome_iff_exists.mp h.1
    have hc' : findChild (timeKey .tcx)
        (setChildText "DistanceMeters"
          (.num (fadd v (dd.getD (fsub sd v)))) q) =
        some (Elem.mk c.tag c.attrs c.text c.children) := by
      rw [show timeKey .tcx = "Time" from rfl,
        findChild_setChildText_ne _ _ (by decide)]
      rw [show findChild "Time" q = some c from hc]
      cases c with
      | mk a b e f => rfl
    rw [rewritePoint_tcx_dist sd (.td delta) s i dd hfc hx,
      writeTime_some delta s i _ hc']
    exact ⟨_, _, rfl⟩
  | gpx =>
    simp only [wfPoint, hasTime, Bool.and_eq_true] at h
    obtain ⟨c, hc⟩ := Option.isSome_iff_exists.mp h.1
    rw [rewritePoint_gpx, writeTime_some delta s i dd hc]
    exact ⟨_, _, rfl⟩

theorem rewritePoint_missing {d : Dialect} {p : Elem} (sd : PyFloat)
    (delta s : Int) (i : Nat) (dd : Option PyFloat) (h : missesField d p) :
    rewritePoint d sd (.td delta) s i dd p = .error .missingField := by
  rcases h with ⟨hd, hfc⟩ | ⟨htime, himpl⟩
  · subst hd
    exact rewritePoint_tcx_noDist sd (.td delta) s i dd hfc
  · cases d with
    | tcx =>
      obtain ⟨v, hv⟩ := Option.isSome_iff_exists.mp (himpl rfl)
      obtain ⟨ed, hfc, hx⟩ := distValOf_iff.mp hv
      have hno : findChild (timeKey .tcx)
          (setChildText "DistanceMeters"
            (.num (fadd v (dd.getD (fsub sd v)))) p) = none := by
        rw [show timeKey .tcx = "Time" from rfl,
          findChild_setChildText_ne _ _ (by decide)]
        exact htime
      rw [rewritePoint_tcx_dist sd (.td delta) s i dd hfc hx,
        writeTime_none delta s i _ hno]
    | gpx =>
      rw [rewritePoint_gpx, writeTime_none delta s i dd htime]

theorem rewritePoint_intZero {d : Dialect} {p : Elem} (sd : PyFloat)
    (s : Int) (i : Nat) (dd : Option PyFloat)
    (hd : d = .tcx → (distValOf p).isSome) :
    rewritePoint d sd .intZero s i dd p = .error .typeError := by
  cases d with
  | gpx => rw [rewritePoint_gpx, writeTime_intZero]
  | tcx =>
    obtain ⟨v, hv⟩ := Option.isSome_iff_exists.mp (hd rfl)
    obtain ⟨ed, hfc, hx⟩ := distValOf_iff.mp hv
    rw [rewritePoint_tcx_dist sd .intZero s i dd hfc hx, writeTime_intZero]

/-! ### The rewrite loop: structure of successful runs -/

theorem processPoints_cons_inv {d : Dialect} {sd : PyFloat} {s : Int}
    {td : TDelta} {k : Nat} {dd : Option PyFloat} {p : Elem}
    {ps : List Elem} {res : List Elem}
    (h : processPoints d sd s td k dd (p :: ps) = .ok res) :
    ∃ p1 dd1 ps1,
      rewritePoint d sd td s k dd p = .ok (p1, dd1) ∧
      processPoints d sd s td (k + 1) dd1 ps = .ok ps1 ∧
      res = p1 :: ps1 := by
  cases hrp : rewritePoint d sd td s k dd p with
  | error e => simp [processPoints, hrp] at h
  | ok pr =>
    obtain ⟨p1, dd1⟩ := pr
    simp only [processPoints, hrp] at h
    cases hpp : processPoints d sd s td (k + 1) dd1 ps with
    | error e => simp [hpp] at h
    | ok ps1 =>
      simp only [hpp, Except.ok.injEq] at h
      exact ⟨p1, dd1, ps1, rfl, hpp, h.symm⟩

theorem processPoints_nil_inv {d : Dialect} {sd : PyFloat} {s : Int}
    {td : TDelta} {k : Nat} {dd : Option PyFloat} {res : List Elem}
    (h : processPoints d sd s td k dd [] = .ok res) : res = [] := by
  simp only [processPoints, Except.ok.injEq] at h
  exact h.symm

theorem processPoints_intZero_typeError {d : Dialect} {sd : PyFloat}
    {s : Int} {k : Nat} {dd : Option PyFloat} {q : Elem} (ps : List Elem)
    (hd : d = .tcx → (distValOf q).isSome) :
    processPoints d sd s .intZero k dd (q :: ps) = .error .typeError := by
  simp only [processPoints, rewritePoint_intZero sd s k dd hd]

theorem processPoints_ok_times {d : Dialect} {sd : PyFloat}
    {s delta : Int} :
    ∀ {tps : List Elem} {k : Nat} {dd : Option PyFloat} {tps' : List Elem},
      processPoints d sd s (.td delta) k dd tps = .ok tps' →
      tps'.length = tps.length ∧
      ∀ i (hi : i < tps'.length),
        timeSecOf d (tps'.get ⟨i, hi⟩) =
          some (renderSec (interpTime s delta (k + i))) := by
  intro tps
  induction tps with
  | nil =>
    intro k dd tps' h
    rw [processPoints_nil_inv h]
    exact ⟨rfl, fun i hi => absurd hi (by simp)⟩
  | cons p ps ih =>
    intro k dd tps' h
    obtain ⟨p1, dd1, ps1, hrp, hpp, hres⟩ := processPoints_cons_inv h
    subst hres
    obtain ⟨hlen, htimes⟩ := ih hpp
    refine ⟨by simp [hlen], ?_⟩
    intro i hi
    cases i with
    | zero => simpa using rewritePoint_ok_time hrp
    | succ j =>
      have hj : j < ps1.length := by simpa using hi
      have hh := htimes j hj
      have hidx : k + 1 + j = k + (j + 1) := by omega
      rw [hidx] at hh
      simpa using hh

theorem processPoints_ok_frame {d : Dialect} {sd : PyFloat} {s : Int}
    {td : TDelta} :
    ∀ {tps : List Elem} {k : Nat} {dd : Option PyFloat} {tps' : List Elem},
      processPoints d sd s td k dd tps = .ok tps' →
      List.Forall₂ (pointFrame d) tps tps' := by
  intro tps
  induction tps with
  | nil =>
    intro k dd tps' h
    rw [processPoints_nil_inv h]
    exact List.Forall₂.nil
  | cons p ps ih =>
    intro k dd tps' h
    obtain ⟨p1, dd1, ps1, hrp, hpp, hres⟩ := processPoints_cons_inv h
    subst hres
    exact List.Forall₂.cons (rewritePoint_frame hrp) (ih hpp)

theorem processPoints_tcx_dist_sliding {sd : PyFloat} {s : Int}
    {td : TDelta} {dv : PyFloat} :
    ∀ {tps : List Elem} {k : Nat} {tps' : List Elem},
      processPoints .tcx sd s td k (some dv) tps = .ok tps' →
      ∀ i (hi' : i < tps.length) (hi : i < tps'.length) v,
        distValOf (tps.get ⟨i, hi'⟩) = some v →
        distValOf (tps'.get ⟨i, hi⟩) = some (fadd v dv) := by
  intro tps
  induction tps with
  | nil => intro k tps' h i hi'; exact absurd hi' (by simp)
  | cons p ps ih =>
    intro k tps' h i hi' hi v hv
    obtain ⟨p1, dd1, ps1, hrp, hpp, hres⟩ := processPoints_cons_inv h
    subst hres
    cases i with
    | zero =>
      have := rewritePoint_tcx_ok_dist hrp (by simpa using hv)
      simpa using this.1
    | succ j =>
      have hdd1 : dd1 = some dv := by
        obtain ⟨delta, hdel⟩ := rewritePoint_ok_td hrp
        subst hdel
        obtain ⟨ed, v0, hfc, hx, hdd, hp⟩ := rewritePoint_tcx_ok_inv hrp
        simpa using hdd
      subst hdd1
      have hj' : j < ps.length := by simpa using hi'
      have hj : j < ps1.length := by simpa using hi
      have := ih hpp j hj' hj v (by simpa using hv)
      simpa using this

theorem processPoints_ok_wf {d : Dialect} {sd : PyFloat} {s : Int}
    {td : TDelta} :
    ∀ {tps : List Elem} {k : Nat} {dd : Option PyFloat} {tps' : List Elem},
      processPoints d sd s td k dd tps = .ok tps' →
      ∀ p ∈ tps, wfPoint d p = true := by
  intro tps
  induction tps with
  | nil => intro k dd tps' _ p hp; exact absurd hp (by simp)
  | cons q ps ih =>
    intro k dd tps' h p hp
    obtain ⟨p1, dd1, ps1, hrp, hpp, hres⟩ := processPoints_cons_inv h
    rcases List.mem_cons.mp hp with hq | hq
    · subst hq; exact rewritePoint_ok_wf hrp
    · exact ih hpp p hq

theorem processPoints_first_missing {d : Dialect} {sd : PyFloat}
    {s delta : Int} {p : Elem} (hbad : missesField d p) :
    ∀ (ps1 : List Elem) (k : Nat) (dd : Option PyFloat) (ps2 : List Elem),
      (∀ q ∈ ps1, wfPoint d q = true) →
      processPoints d sd s (.td delta) k dd (ps1 ++ p :: ps2) =
        .error .missingField := by
  intro ps1
  induction ps1 with
  | nil =>
    intro k dd ps2 _
    simp only [List.nil_append, processPoints,
      rewritePoint_missing sd delta s k dd hbad]
  | cons q rest ih =>
    intro k dd ps2 hwf
    obtain ⟨q', dd2, hq⟩ := rewritePoint_ok_of_wf sd delta s k dd
      (hwf q (by simp))
    have hrest := ih (k + 1) dd2 ps2 (fun r hr => hwf r (by simp [hr]))
    simp only [List.cons_append, processPoints, hq, List.append_eq, hrest]

/-! ### Arithmetic facts about the rounded time step -/

theorem divideNearest_exact {a b : Int} (hb : 0 < b) (hd : b ∣ a) :
    b * divideNearest a b = a := by
  obtain ⟨c, rfl⟩ := hd
  have hq : Int.fdiv (b * c) b = c := Int.mul_fdiv_cancel_left c hb.ne'
  have hr : Int.fmod (b * c) b = 0 := Int.mul_fmod_right b c
  unfold divideNearest
  rw [hq, hr]
  have : ¬(2 * (0:Int) > b ∨ (2 * (0:Int) = b ∧ c % 2 = 1)) := by
    push_neg
    refine ⟨by omega, fun h2 => absurd h2 (by omega)⟩
  rw [if_neg this]

theorem divideNearest_nonneg {a b : Int} (ha : 0 ≤ a) (hb : 0 < b) :
    0 ≤ divideNearest a b := by
  have hq : 0 ≤ Int.fdiv a b := Int.fdiv_nonneg ha hb.le
  unfold divideNearest
  split
  · omega
  · omega

theorem timeDelta_td {s e : Int} {n : Nat} (hn : 1 < n) :
    timeDelta s e n = .td (divideNearest (e - s) ((n : Int) - 1)) := by
  unfold timeDelta
  rw [if_pos hn]

theorem timeDelta_one (s e : Int) : timeDelta s e 1 = .intZero := rfl

/-! ## The claims -/

/-- C1 (amended).  With `n > 1` points the step is
`(end_time - start_time)/(n-1)` rounded to the nearest microsecond (ties to
even, Python `timedelta` division) and point `i` receives
`start_time + i*step`, its text being the whole-second rendering of that
instant: point `0` receives exactly `start_time`; point `n-1` receives
exactly `end_time` whenever `n-1` divides `end_time - start_time` in
microseconds (the unamended claim fails otherwise, see the counterexample);
and when `start_time ≤ end_time` the times are monotonically
non-decreasing.  A single-point course, however, receives nothing at all:
`time_delta` is then still the Python int `0` (line 98) and line 112
raises `TypeError` on `datetime + int`, so the run fails with a message
and exit status 1 before any time is written. -/
theorem claim_C1 {d : Dialect} {sd : PyFloat} {s e : Int}
    {tps tps' : List Elem} {delta : Int}
    (hn : 1 < tps.length)
    (hdelta : timeDelta s e tps.length = .td delta)
    (h : processPoints d sd s (timeDelta s e tps.length) 0 none tps =
      .ok tps') :
    delta = divideNearest (e - s) ((tps.length : Int) - 1) ∧
    (∀ i (hi : i < tps'.length),
      timeSecOf d (tps'.get ⟨i, hi⟩) =
        some (renderSec (interpTime s delta i))) ∧
    interpTime s delta 0 = s ∧
    (((tps.length : Int) - 1) ∣ (e - s) →
      interpTime s delta (tps.length - 1) = e) ∧
    (s ≤ e → ∀ i j : Nat, i ≤ j →
      interpTime s delta i ≤ interpTime s delta j) ∧
    (∀ q : Elem, (d = .tcx → (distValOf q).isSome) →
      processPoints d sd s (timeDelta s e 1) 0 none [q] =
        .error .typeError) := by
  have hstep : delta = divideNearest (e - s) ((tps.length : Int) - 1) := by
    rw [timeDelta_td hn] at hdelta
    exact (TDelta.td.inj hdelta).symm
  refine ⟨hstep, ?_, by simp [interpTime], ?_, ?_, ?_⟩
  · intro i hi
    rw [hdelta] at h
    have := (processPoints_ok_times h).2 i hi
    simpa using this
  · intro hdvd
    have hb : (0 : Int) < (tps.length : Int) - 1 := by
      have : (1 : Int) < (tps.length : Int) := by exact_mod_cast hn
      omega
    have hcast : ((tps.length - 1 : Nat) : Int) = (tps.length : Int) - 1 := by
      have h1 : 1 ≤ tps.length := by omega
      push_cast [h1]
      ring
    unfold interpTime
    rw [hstep, hcast, divideNearest_exact hb hdvd]
    ring
  · intro hse i j hij
    have hnn : 0 ≤ delta := by
      rw [hstep]
      refine divideNearest_nonneg (by omega) ?_
      have : (1 : Int) < (tps.length : Int) := by exact_mod_cast hn
      omega
    unfold interpTime
    have : (i : Int) * delta ≤ (j : Int) * delta := by
      apply mul_le_mul_of_nonneg_right _ hnn
      exact_mod_cast hij
    omega
  · intro q hq
    rw [timeDelta_one]
    exact processPoints_intZero_typeError [] hq

/-- C1, witness: a two-point GPX course over `[0s, 10s]` — the first point
receives the start time, the second exactly the end time, the first point's
stored text is the rendered start second — and the single-point variant of
the same course fails with the `TypeError`. -/
theorem claim_C1_witness :
    interpTime 0 10000000 0 = 0 ∧
    interpTime 0 10000000 1 = 10000000 ∧
    timeSecOf .gpx
      (([gpxPtAt 0, gpxPtAt 10] : List Elem).get ⟨0, by decide⟩) =
      some (renderSec (interpTime 0 10000000 0)) ∧
    processPoints .gpx (.finite 0) 0 (timeDelta 0 10000000 1) 0 none
      [gpxPt] = .error .typeError := by
  have h := @claim_C1 .gpx (.finite 0) 0 10000000 [gpxPt, gpxPt]
    [gpxPtAt 0, gpxPtAt 10] 10000000 (by decide) (by decide) (by rfl)
  refine ⟨h.2.2.1, ?_, h.2.1 0 (by decide),
    h.2.2.2.2.2 gpxPt (fun hh => nomatch hh)⟩
  have h2 := h.2.2.2.1 (by norm_num)
  simpa using h2

/-- C1, counterexample to the unamended claim: with four points over an
interval of one second (`start = 0`, `end = 1000000` microseconds) the
step rounds to `333333` microseconds and the last point receives
`999999 ≠ 1000000` — its rendered second is `0` while the end time's
second is `1`; with `start = 1000000 > end = 0` the two points' times
strictly decrease, refuting unconditional monotonicity; and a single-point
course receives nothing: the loop fails with `TypeError`
(`datetime + int`, line 112), refuting "that point's time is set to
start_time". -/
theorem claim_C1_counterexample :
    timeDelta 0 1000000 4 = .td 333333 ∧
    interpTime 0 333333 3 = 999999 ∧
    (999999 : Int) ≠ 1000000 ∧
    (processPoints .gpx (.finite 0) 0 (timeDelta 0 1000000 4) 0 none
        [gpxPt, gpxPt, gpxPt, gpxPt]).map
      (fun l => l.map (timeSecOf .gpx)) =
      .ok [some 0, some 0, some 0, some 0] ∧
    renderSec 1000000 = 1 ∧
    timeDelta 1000000 0 2 = .td (-1000000) ∧
    interpTime 1000000 (-1000000) 0 = 1000000 ∧
    interpTime 1000000 (-1000000) 1 = 0 ∧
    ¬(1000000 : Int) ≤ 0 ∧
    processPoints .gpx (.finite 0) 0 (timeDelta 0 5000000 1) 0 none
      [gpxPt] = .error .typeError := by
  refine ⟨by decide, by decide, by decide, by decide, by decide, by decide,
    by decide, by decide, by decide, by rfl⟩

/-- C2 (amended).  In the TCX dialect the distance delta is the double
`start_dist - original_distance(0)`, computed once from the first point's
original distance, and every point's new distance is the double sum of its
original distance and that delta.  The additions and subtractions are
IEEE-754 binary64 and round to nearest (ties to even), so the exact
real-arithmetic identity of the unamended claim fails (see the
counterexample), and the first point's new distance is
`fl(orig₀ + fl(start_dist - orig₀))`, which need not equal `start_dist`.
An absent start-distance argument resolves to zero. -/
theorem claim_C2 {sdArg : Option PyFloat} {s : Int} {td : TDelta}
    {tps tps' : List Elem} {v0 : PyFloat}
    (h : processPoints .tcx (resolveStartDist sdArg) s td 0 none tps =
      .ok tps')
    (h0 : 0 < tps.length)
    (hd0 : distValOf (tps.get ⟨0, h0⟩) = some v0) :
    resolveStartDist none = .finite 0 ∧
    (∀ i (hi' : i < tps.length) (hi : i < tps'.length) v,
      distValOf (tps.get ⟨i, hi'⟩) = some v →
      distValOf (tps'.get ⟨i, hi⟩) =
        some (fadd v (fsub (resolveStartDist sdArg) v0))) ∧
    (∀ hi : 0 < tps'.length,
      distValOf (tps'.get ⟨0, hi⟩) =
        some (fadd v0 (fsub (resolveStartDist sdArg) v0))) := by
  cases tps with
  | nil => exact absurd h0 (by simp)
  | cons p ps =>
    obtain ⟨p1, dd1, ps1, hrp, hpp, hres⟩ := processPoints_cons_inv h
    subst hres
    have hd0' : distValOf p = some v0 := by simpa using hd0
    have hfirst := rewritePoint_tcx_ok_dist hrp hd0'
    have hdd1 : dd1 = some (fsub (resolveStartDist sdArg) v0) := by
      simpa using hfirst.2
    subst hdd1
    refine ⟨rfl, ?_, ?_⟩
    · intro i hi' hi v hv
      cases i with
      | zero =>
        have h1 : distValOf p1 =
            some (fadd v0 (fsub (resolveStartDist sdArg) v0)) := by
          simpa using hfirst.1
        have hv' : v = v0 := by
          have hx : distValOf p = some v := by simpa using hv
          rw [hd0'] at hx
          exact (Option.some.inj hx).symm
        subst hv'
        simpa using h1
      | succ j =>
        have hj' : j < ps.length := by simpa using hi'
        have hj : j < ps1.length := by simpa using hi
        have := processPoints_tcx_dist_sliding hpp j hj' hj v
          (by simpa using hv)
        simpa using this
    · intro hi
      have h1 : distValOf p1 =
          some (fadd v0 (fsub (resolveStartDist sdArg) v0)) := by
        simpa using hfirst.1
      simpa using h1

set_option exponentiation.threshold 1200 in
set_option maxRecDepth 8000 in
/-- C2, witness: distances `[100, 150, 200]` with start distance `351` —
all exactly representable, so the doubles land on `[351, 401, 451]`
(checked at index 1: `fadd 150 (fsub 351 100) = 401`); and the default
start distance is zero. -/
theorem claim_C2_witness :
    resolveStartDist none = .finite 0 ∧
    distValOf (([tcxPtAt 351 0, tcxPtAt 401 0, tcxPtAt 451 0] :
        List Elem).get ⟨1, by decide⟩) =
      some (fadd (.finite 150)
        (fsub (resolveStartDist (some (.finite 351))) (.finite 100))) := by
  have h := @claim_C2 (some (.finite 351)) 0 (.td 0)
    [tcxPt 100, tcxPt 150, tcxPt 200]
    [tcxPtAt 351 0, tcxPtAt 401 0, tcxPtAt 451 0] (.finite 100)
    (by with_unfolding_all rfl) (by decide) (by with_unfolding_all rfl)
  exact ⟨h.1, h.2.1 1 (by decide) (by decide) (.finite 150)
    (by with_unfolding_all rfl)⟩

set_option exponentiation.threshold 1200 in
set_option maxRecDepth 8000 in
/-- C2, counterexample to the unamended exact identity: with original
distances `[100, 150]` and start distance the double `float("0.1")`
(`3602879701896397/2^55`), the written second distance is the double
`1762737041650483/2^45` (printed `50.099999999999994`), not the exact
`original + (start_dist - original₀)`; the first point's new distance is
`3518437208883/2^45 ≈ 0.0999999999999943`, not the start distance; and
with `orig₀ = 10^16`, `start_dist = 1.0`, the first point's new distance
is even `0.0`. -/
theorem claim_C2_counterexample :
    (processPoints .tcx
        (.finite (3602879701896397 / 36028797018963968)) 0 (.td 0) 0 none
        [tcxPt 100, tcxPt 150]).map (fun l => l.map distValOf) =
      .ok [some (.finite (3518437208883 / 35184372088832)),
           some (.finite (1762737041650483 / 35184372088832))] ∧
    (1762737041650483 / 35184372088832 : Rat) ≠
      150 + (3602879701896397 / 36028797018963968 - 100) ∧
    (3518437208883 / 35184372088832 : Rat) ≠
      3602879701896397 / 36028797018963968 ∧
    fadd (.finite 10000000000000000)
      (fsub (.finite 1) (.finite 10000000000000000)) = .finite 0 ∧
    PyFloat.finite 0 ≠ PyFloat.finite 1 := by
  refine ⟨by with_unfolding_all rfl, by norm_num, by norm_num,
    by with_unfolding_all rfl, by decide⟩

/-- C3.  The rewrite loop preserves point count and point order, and for
every point everything except the text of its time child (and, for TCX
only, of its `DistanceMeters` child) passes through unchanged: tag,
attributes, own text, and every child's tag, attributes, subtree and
(for non-rewritten tags) text. -/
theorem claim_C3 {d : Dialect} {sd : PyFloat} {s : Int} {td : TDelta}
    {k : Nat} {dd : Option PyFloat} {tps tps' : List Elem}
    (h : processPoints d sd s td k dd tps = .ok tps') :
    tps'.length = tps.length ∧ List.Forall₂ (pointFrame d) tps tps' := by
  have hf := processPoints_ok_frame h
  exact ⟨hf.length_eq.symm, hf⟩

/-- C3, witness: the one-point GPX course, rewritten at time `0`. -/
theorem claim_C3_witness :
    ([gpxPtAt 0] : List Elem).length = ([gpxPt] : List Elem).length ∧
    List.Forall₂ (pointFrame .gpx) [gpxPt] [gpxPtAt 0] :=
  @claim_C3 .gpx (.finite 0) 0 (.td 0) 0 none [gpxPt] [gpxPtAt 0] (by rfl)

/-- C5 (amended).  When the time step is a genuine `timedelta` (a course
with more than one point), a point lacking the time child its dialect
expects makes the loop fail at the `.text` assignment: with every earlier
point well-formed the result is exactly the missing-field error
(`AttributeError`, reported with a message and exit status 1), and a
successful run certifies that every point had the expected fields.  A
missing `DistanceMeters` child (TCX) gives the missing-field error
regardless of the step, because distance is processed before the time
computation.  On a single-point course, however, a missing time field is
never reached: line 112 raises `TypeError` first (see the
counterexample). -/
theorem claim_C5 {d : Dialect} {sd : PyFloat} {s delta : Int} {k : Nat}
    {dd : Option PyFloat} {ps1 : List Elem} {p : Elem} {ps2 : List Elem}
    (hwf : ∀ q ∈ ps1, wfPoint d q = true) (hbad : missesField d p) :
    processPoints d sd s (.td delta) k dd (ps1 ++ p :: ps2) =
      .error .missingField ∧
    (∀ tps tps', processPoints d sd s (.td delta) k dd tps = .ok tps' →
      ∀ q ∈ tps, wfPoint d q = true) ∧
    (findChild "DistanceMeters" p = none → ∀ td : TDelta,
      processPoints .tcx sd s td k dd (p :: ps2) =
        .error .missingField) := by
  refine ⟨processPoints_first_missing hbad ps1 k dd ps2 hwf,
    fun _ _ hok => processPoints_ok_wf hok, ?_⟩
  intro hfc td
  simp only [processPoints, rewritePoint_tcx_noDist sd td s k dd hfc]

/-- C5, witness: a two-point GPX course whose second point has no time
child fails with the missing-field error. -/
theorem claim_C5_witness :
    processPoints .gpx (.finite 0) 0 (.td 0) 0 none
      [gpxPt, .mk "trkpt" [] none []] = .error .missingField :=
  (@claim_C5 .gpx (.finite 0) 0 0 0 none [gpxPt] (.mk "trkpt" [] none [])
    [] (by decide) (Or.inr ⟨rfl, fun hh => nomatch hh⟩)).1

/-- C5, counterexample to the unamended claim at a single-point course:
the sole point lacks its time field, yet the failure is the `TypeError`
of line 112 (`datetime + int`, `time_delta` being the unreplaced int `0`),
raised before the missing-field `AttributeError` of line 113 could
occur. -/
theorem claim_C5_counterexample :
    processPoints .gpx (.finite 0) 0 (timeDelta 0 1000000 1) 0 none
      [.mk "trkpt" [] none []] = .error .typeError ∧
    PErr.typeError ≠ PErr.missingField :=
  ⟨by rfl, by decide⟩

/-- C4.  On a course with no trackpoints, `trackpoints[0]` raises
`IndexError` (line 94) before any rewriting or output: the run is the
empty-course error — the interpreter prints the exception message and the
process exits with status 1 with nothing written to the output file (the
model's error result carries no output element). -/
theorem claim_C4 {d : Dialect} {s e : Int} {sdArg : Option PyFloat}
    {tree : Elem} (h : findAll (ptTag d) (stripNS tree) = []) :
    run d s e sdArg tree = .error .emptyCourse := by
  simp [run, h]

/-- C4, witness: an empty course document. -/
theorem claim_C4_witness :
    run .tcx 0 0 none (.mk "Course" [] none []) = .error .emptyCourse :=
  claim_C4 (by rfl)

/-! ### Dialect inference lemmas (for C6 and C10) -/

theorem splitDot_ne_nil : ∀ l : List Char, splitDot l ≠ []
  | [] => by simp [splitDot]
  | c :: cs => by
    simp only [splitDot]
    cases h : splitDot cs with
    | nil => simp
    | cons hh tt =>
      by_cases hc : c = '.' <;> simp [hc]

theorem splitDot_no_dot : ∀ {l : List Char}, ('.' : Char) ∉ l →
    splitDot l = [l]
  | [], _ => rfl
  | c :: cs, h => by
    have hc : c ≠ '.' := fun hcc => h (by simp [hcc])
    have hcs : ('.' : Char) ∉ cs := fun hm => h (by simp [hm])
    simp only [splitDot, splitDot_no_dot hcs, if_neg hc]

theorem two_le_splitDot_of_mem : ∀ {l : List Char}, ('.' : Char) ∈ l →
    2 ≤ (splitDot l).length
  | [], h => absurd h (by simp)
  | c :: cs, h => by
    simp only [splitDot]
    cases hs : splitDot cs with
    | nil => exact absurd hs (splitDot_ne_nil cs)
    | cons hh tt =>
      by_cases hc : c = '.'
      · simp [hc]
      · have hm : ('.' : Char) ∈ cs := by
          rcases List.mem_cons.mp h with h1 | h1
          · exact absurd h1.symm hc
          · exact h1
        have := two_le_splitDot_of_mem hm
        rw [hs] at this
        simp only [if_neg hc]
        simpa using this

theorem getLast?_splitDot_append (l2 : List Char) :
    ∀ l1 : List Char,
      (splitDot (l1 ++ '.' :: l2)).getLast? = (splitDot l2).getLast?
  | [] => by
    simp only [List.nil_append, splitDot]
    cases hs : splitDot l2 with
    | nil => exact absurd hs (splitDot_ne_nil l2)
    | cons hh tt => simp
  | c :: l1 => by
    have ih := getLast?_splitDot_append l2 l1
    simp only [List.cons_append, splitDot]
    cases hs : splitDot (l1 ++ '.' :: l2) with
    | nil => exact absurd hs (splitDot_ne_nil _)
    | cons hh tt =>
      have h2 : 2 ≤ (splitDot (l1 ++ '.' :: l2)).length :=
        two_le_splitDot_of_mem (by simp)
      rw [hs] at h2 ih
      cases tt with
      | nil => simp at h2
      | cons u us =>
        by_cases hc : c = '.'
        · simp only [if_pos hc]
          rw [← ih]
          simp
        · simp only [if_neg hc]
          rw [← ih]
          simp

theorem data_append (a b : String) : (a ++ b).data = a.data ++ b.data := rfl

theorem extOf_concat {s ext : String} (h : ('.' : Char) ∉ ext.data) :
    extOf (s ++ "." ++ ext) = ⟨ext.data.map Char.toLower⟩ := by
  unfold extOf
  have hdata : (s ++ "." ++ ext).data = s.data ++ '.' :: ext.data := by
    rw [data_append, data_append, List.append_assoc,
      show (".".data : List Char) = ['.'] from rfl, List.singleton_append]
  rw [hdata, List.getLastD_eq_getLast?, getLast?_splitDot_append,
    splitDot_no_dot h]
  rfl

theorem extOf_no_dot {inp : String} (h : ('.' : Char) ∉ inp.data) :
    extOf inp = ⟨inp.data.map Char.toLower⟩ := by
  unfold extOf
  rw [splitDot_no_dot h]
  rfl

/-- C6.  Dialect selection: an explicit override is obeyed (the argparse
`choices` only admit the two dialect names); with no override, a path whose
final `'.'`-separated component lowercases to `tcx` selects the
distance-bearing dialect and one lowercasing to `gpx` the non-distance
dialect (case-insensitive via lowercasing); any other extension makes the
program reject the input (message and exit status 1, lines 57-59). -/
theorem claim_C6 (s ext : String) (hnd : ('.' : Char) ∉ ext.data) :
    selectDialect (some "tcx") s = .ok .tcx ∧
    selectDialect (some "gpx") s = .ok .gpx ∧
    (ext.data.map Char.toLower = "tcx".data →
      selectDialect none (s ++ "." ++ ext) = .ok .tcx) ∧
    (ext.data.map Char.toLower = "gpx".data →
      selectDialect none (s ++ "." ++ ext) = .ok .gpx) ∧
    (∀ inp : String, extOf inp ≠ "tcx" → extOf inp ≠ "gpx" →
      selectDialect none inp = .error .badValue) := by
  refine ⟨rfl, rfl, ?_, ?_, ?_⟩
  · intro hlow
    show classifyType (extOf (s ++ "." ++ ext)) = .ok .tcx
    rw [extOf_concat hnd, hlow]
    rfl
  · intro hlow
    show classifyType (extOf (s ++ "." ++ ext)) = .ok .gpx
    rw [extOf_concat hnd, hlow]
    rfl
  · intro inp h1 h2
    show classifyType (extOf inp) = .error .badValue
    unfold classifyType
    rw [if_neg h1, if_neg h2]

/-- C6, witness: `course.TCX` infers the TCX dialect case-insensitively,
`x.gpx` the GPX dialect, and the override is obeyed. -/
theorem claim_C6_witness :
    selectDialect (some "tcx") "whatever.gpx" = .ok .tcx ∧
    selectDialect none ("course" ++ "." ++ "TCX") = .ok .tcx ∧
    selectDialect none ("x" ++ "." ++ "gpx") = .ok .gpx := by
  refine ⟨(claim_C6 "whatever.gpx" "TCX" (by decide)).1,
    (claim_C6 "course" "TCX" (by decide)).2.2.1 (by decide),
    (claim_C6 "x" "gpx" (by decide)).2.2.2.1 (by decide)⟩

/-- C10.  With no override, inference takes the substring after the last
`'.'` of the path, lowercased; a path with no `'.'` at all is its own
"extension" (Python `split` returns the whole string), so inputs named
exactly `tcx` or `gpx` are accepted. -/
theorem claim_C10 {inp : String} (h : ('.' : Char) ∉ inp.data) :
    extOf inp = ⟨inp.data.map Char.toLower⟩ ∧
    selectDialect none inp = classifyType ⟨inp.data.map Char.toLower⟩ ∧
    selectDialect none "tcx" = .ok .tcx ∧
    selectDialect none "gpx" = .ok .gpx := by
  refine ⟨extOf_no_dot h, ?_, by decide, by decide⟩
  show classifyType (extOf inp) = _
  rw [extOf_no_dot h]

/-- C10, witness: the dotless path `tcx` is accepted as the TCX dialect. -/
theorem claim_C10_witness :
    extOf "tcx" = ⟨"tcx".data.map Char.toLower⟩ ∧
    selectDialect none "tcx" = .ok .tcx := by
  have h := @claim_C10 "tcx" (by decide)
  exact ⟨h.1, h.2.2.1⟩

/-! ### The GPX branch never reads the start distance (for C9) -/

mutual

theorem rewriteTree_sdIrrel_gpx (a b : PyFloat) (s : Int) (td : TDelta) :
    ∀ (e : Elem) (st : Nat × Option PyFloat),
      rewriteTree .gpx a s td e st = rewriteTree .gpx b s td e st
  | .mk t at1 x cs, st => by
    have e1 : ∀ (i : Nat) (dd : Option PyFloat) (p : Elem),
        rewritePoint .gpx a td s i dd p = rewritePoint .gpx b td s i dd p :=
      fun _ _ _ => rfl
    have el : rewriteList .gpx a s td cs =
        rewriteList .gpx b s td cs := by
      funext st2
      exact rewriteList_sdIrrel_gpx a b s td cs st2
    simp only [rewriteTree, e1, el]

theorem rewriteList_sdIrrel_gpx (a b : PyFloat) (s : Int) (td : TDelta) :
    ∀ (cs : List Elem) (st : Nat × Option PyFloat),
      rewriteList .gpx a s td cs st = rewriteList .gpx b s td cs st
  | [], _ => rfl
  | c :: rest, st => by
    have e1 : rewriteTree .gpx a s td c = rewriteTree .gpx b s td c := by
      funext st2
      exact rewriteTree_sdIrrel_gpx a b s td c st2
    have e2 : rewriteList .gpx a s td rest =
        rewriteList .gpx b s td rest := by
      funext st2
      exact rewriteList_sdIrrel_gpx a b s td rest st2
    simp only [rewriteList, e1, e2]

end

/-- C9.  For the GPX dialect the start-distance argument is dead: the
distance branch of the loop is TCX-only, so two runs differing only in the
supplied start distance produce identical results (output element or
error). -/
theorem claim_C9 (s e : Int) (sd1 sd2 : Option PyFloat) (tree : Elem) :
    run .gpx s e sd1 tree = run .gpx s e sd2 tree := by
  simp only [run,
    rewriteTree_sdIrrel_gpx (resolveStartDist sd1) (resolveStartDist sd2) s]

/-! ### Namespace stripping (for C8) -/

theorem afterBrace_append {l1 : List Char} (l2 : List Char)
    (h : ('}' : Char) ∉ l1) : afterBrace (l1 ++ '}' :: l2) = some l2 := by
  induction l1 with
  | nil => simp [afterBrace]
  | cons c cs ih =>
    have hc : c ≠ '}' := fun hcc => h (by simp [hcc])
    have hcs : ('}' : Char) ∉ cs := fun hm => h (by simp [hm])
    simp only [List.cons_append, afterBrace, if_neg hc]
    exact ih hcs

theorem afterBrace_none {l : List Char} (h : ('}' : Char) ∉ l) :
    afterBrace l = none := by
  induction l with
  | nil => rfl
  | cons c cs ih =>
    have hc : c ≠ '}' := fun hcc => h (by simp [hcc])
    have hcs : ('}' : Char) ∉ cs := fun hm => h (by simp [hm])
    simp only [afterBrace, if_neg hc]
    exact ih hcs

theorem noBrace_iff {s : String} :
    noBrace s = true ↔ ('}' : Char) ∉ s.data := by
  simp [noBrace]

theorem stripNSName_qualify {u : String} (t : String)
    (hu : noBrace u = true) :
    stripNSName ("\x7b" ++ u ++ "\x7d" ++ t) = t := by
  unfold stripNSName
  have hdata : ("\x7b" ++ u ++ "\x7d" ++ t).data =
      '{' :: (u.data ++ '}' :: t.data) := by
    rw [data_append, data_append, data_append]
    simp
  rw [hdata]
  have h1 : afterBrace ('{' :: (u.data ++ '}' :: t.data)) = some t.data := by
    simp only [afterBrace, if_neg (by decide : ('{' : Char) ≠ '}')]
    exact afterBrace_append t.data (noBrace_iff.mp hu)
  rw [h1]

theorem stripNSName_clean {t : String} (ht : noBrace t = true) :
    stripNSName t = t := by
  unfold stripNSName
  rw [afterBrace_none (noBrace_iff.mp ht)]

mutual

theorem stripNS_addNS_clean (u : String) (hu : noBrace u = true) :
    ∀ e : Elem, cleanTags e = true → stripNS (addNS u e) = e
  | .mk t a x cs, hc => by
    simp only [cleanTags, Bool.and_eq_true] at hc
    simp only [addNS, stripNS, stripNSName_qualify t hu,
      stripNSL_addNSL_clean u hu cs hc.2]

theorem stripNSL_addNSL_clean (u : String) (hu : noBrace u = true) :
    ∀ cs : List Elem, cleanTagsL cs = true → stripNSL (addNSL u cs) = cs
  | [], _ => rfl
  | c :: rest, hc => by
    simp only [cleanTagsL, Bool.and_eq_true] at hc
    simp only [addNSL, stripNSL, stripNS_addNS_clean u hu c hc.1,
      stripNSL_addNSL_clean u hu rest hc.2]

end

mutual

theorem stripNS_clean : ∀ e : Elem, cleanTags e = true → stripNS e = e
  | .mk t a x cs, hc => by
    simp only [cleanTags, Bool.and_eq_true] at hc
    simp only [stripNS, stripNSName_clean hc.1, stripNSL_clean cs hc.2]

theorem stripNSL_clean : ∀ cs : List Elem, cleanTagsL cs = true →
    stripNSL cs = cs
  | [], _ => rfl
  | c :: rest, hc => by
    simp only [cleanTagsL, Bool.and_eq_true] at hc
    simp only [stripNSL, stripNS_clean c hc.1, stripNSL_clean rest hc.2]

end

/-- C8.  Namespace tolerance: qualifying every element tag of a clean
document (one whose tags contain no `'}'`) with any namespace uri free of
`'}'` changes nothing — the stripping pass (lines 82-86) removes the
qualification, so the whole run produces the identical result. -/
theorem claim_C8 {d : Dialect} {s e : Int} {sdArg : Option PyFloat}
    {u : String} {tree : Elem} (hu : noBrace u = true)
    (htree : cleanTags tree = true) :
    run d s e sdArg (addNS u tree) = run d s e sdArg tree := by
  simp only [run, stripNS_addNS_clean u hu tree htree,
    stripNS_clean tree htree]

/-- C8, witness: a concrete two-point course processed identically with and
without `{ns0}` qualification on every tag. -/
theorem claim_C8_witness :
    run .tcx 0 0 none (addNS "ns0" plainDoc) = run .tcx 0 0 none plainDoc :=
  claim_C8 (by decide) (by decide)

/-! ### Inversion of the tree rewrite (for C7) -/

theorem rewriteTree_mk_pt_inv {d : Dialect} {sd : PyFloat} {s : Int} {td : TDelta}
    {t : String} {a : List (String × String)} {x : Option Txt}
    {cs : List Elem} {st : Nat × Option PyFloat}
    {res : Elem × (Nat × Option PyFloat)} (ht : t = ptTag d)
    (h : rewriteTree d sd s td (.mk t a x cs) st = .ok res) :
    ∃ p1 dd1 cs' st' p2 dd2,
      rewritePoint d sd td s st.1 st.2 (.mk t a x cs) =
        .ok (p1, dd1) ∧
      rewriteList d sd s td cs (st.1 + 1, dd1) = .ok (cs', st') ∧
      rewritePoint d sd td s st.1 st.2 (.mk t a x cs') =
        .ok (p2, dd2) ∧
      res = (p2, st') := by
  rw [show rewriteTree d sd s td (.mk t a x cs) st =
      if t = ptTag d then
        match rewritePoint d sd td s st.1 st.2
            (.mk t a x cs) with
        | .error er => .error er
        | .ok (_, dd') =>
          match rewriteList d sd s td cs (st.1 + 1, dd') with
          | .error er => .error er
          | .ok (cs', st') =>
            match rewritePoint d sd td s st.1 st.2
                (.mk t a x cs') with
            | .error er => .error er
            | .ok (p'', _) => .ok (p'', st')
      else
        match rewriteList d sd s td cs st with
        | .error er => .error er
        | .ok (cs', st') => .ok (Elem.mk t a x cs', st')
    from rfl, if_pos ht] at h
  cases h1 : rewritePoint d sd td s st.1 st.2
      (.mk t a x cs) with
  | error er => simp [h1] at h
  | ok pr1 =>
    obtain ⟨p1, dd1⟩ := pr1
    simp only [h1] at h
    cases h2 : rewriteList d sd s td cs (st.1 + 1, dd1) with
    | error er => simp [h2] at h
    | ok pr2 =>
      obtain ⟨cs', st'⟩ := pr2
      simp only [h2] at h
      cases h3 : rewritePoint d sd td s st.1 st.2
          (.mk t a x cs') with
      | error er => simp [h3] at h
      | ok pr3 =>
        obtain ⟨p2, dd2⟩ := pr3
        simp only [h3, Except.ok.injEq] at h
        exact ⟨p1, dd1, cs', st', p2, dd2, rfl, h2, h3, h.symm⟩

theorem rewriteTree_mk_npt_inv {d : Dialect} {sd : PyFloat} {s : Int} {td : TDelta}
    {t : String} {a : List (String × String)} {x : Option Txt}
    {cs : List Elem} {st : Nat × Option PyFloat}
    {res : Elem × (Nat × Option PyFloat)} (ht : ¬t = ptTag d)
    (h : rewriteTree d sd s td (.mk t a x cs) st = .ok res) :
    ∃ cs' st', rewriteList d sd s td cs st = .ok (cs', st') ∧
      res = (Elem.mk t a x cs', st') := by
  rw [show rewriteTree d sd s td (.mk t a x cs) st =
      if t = ptTag d then
        match rewritePoint d sd td s st.1 st.2
            (.mk t a x cs) with
        | .error er => .error er
        | .ok (_, dd') =>
          match rewriteList d sd s td cs (st.1 + 1, dd') with
          | .error er => .error er
          | .ok (cs', st') =>
            match rewritePoint d sd td s st.1 st.2
                (.mk t a x cs') with
            | .error er => .error er
            | .ok (p'', _) => .ok (p'', st')
      else
        match rewriteList d sd s td cs st with
        | .error er => .error er
        | .ok (cs', st') => .ok (Elem.mk t a x cs', st')
    from rfl, if_neg ht] at h
  cases h2 : rewriteList d sd s td cs st with
  | error er => simp [h2] at h
  | ok pr2 =>
    obtain ⟨cs', st'⟩ := pr2
    simp only [h2, Except.ok.injEq] at h
    exact ⟨cs', st', rfl, h.symm⟩

theorem rewriteList_cons_inv {d : Dialect} {sd : PyFloat} {s : Int} {td : TDelta}
    {c : Elem} {rest : List Elem} {st : Nat × Option PyFloat}
    {res : List Elem × (Nat × Option PyFloat)}
    (h : rewriteList d sd s td (c :: rest) st = .ok res) :
    ∃ c' st' rest' st'',
      rewriteTree d sd s td c st = .ok (c', st') ∧
      rewriteList d sd s td rest st' = .ok (rest', st'') ∧
      res = (c' :: rest', st'') := by
  cases h1 : rewriteTree d sd s td c st with
  | error er => simp [rewriteList, h1] at h
  | ok pr1 =>
    obtain ⟨c', st'⟩ := pr1
    simp only [rewriteList, h1] at h
    cases h2 : rewriteList d sd s td rest st' with
    | error er => simp [h2] at h
    | ok pr2 =>
      obtain ⟨rest', st''⟩ := pr2
      simp only [h2, Except.ok.injEq] at h
      exact ⟨c', st', rest', st'', rfl, h2, h.symm⟩

theorem rewriteList_nil_inv {d : Dialect} {sd : PyFloat} {s : Int} {td : TDelta}
    {st : Nat × Option PyFloat} {res : List Elem × (Nat × Option PyFloat)}
    (h : rewriteList d sd s td [] st = .ok res) : res = ([], st) := by
  simp only [rewriteList, Except.ok.injEq] at h
  exact h.symm

/-! ### The rewrite preserves the tag/attribute skeleton -/

theorem eraseTextsL_setTextFirst (tag : String) (v : Txt) :
    ∀ cs : List Elem, eraseTextsL (setTextFirst tag v cs) = eraseTextsL cs := by
  intro cs
  induction cs with
  | nil => rfl
  | cons c rest ih =>
    cases c with
    | mk t a x cc =>
      by_cases ht : t = tag
      · simp [setTextFirst, ht, eraseTextsL, eraseTexts]
      · simp [setTextFirst, ht, eraseTextsL, ih]

theorem eraseTexts_setChildText (tag : String) (v : Txt) (p : Elem) :
    eraseTexts (setChildText tag v p) = eraseTexts p := by
  cases p with
  | mk t a x cs =>
    simp [setChildText, eraseTexts, eraseTextsL_setTextFirst]

theorem rewritePoint_erase {d : Dialect} {sd : PyFloat} {td : TDelta}
    {s : Int} {i : Nat} {dd : Option PyFloat} {p p' : Elem}
    {dd' : Option PyFloat}
    (h : rewritePoint d sd td s i dd p = .ok (p', dd')) :
    eraseTexts p' = eraseTexts p := by
  obtain ⟨delta, hdel⟩ := rewritePoint_ok_td h
  subst hdel
  cases d with
  | tcx =>
    obtain ⟨ed, v, hfc, hx, hdd, hp⟩ := rewritePoint_tcx_ok_inv h
    subst hp
    rw [eraseTexts_setChildText, eraseTexts_setChildText]
  | gpx =>
    obtain ⟨hsome, hdd, hp⟩ := rewritePoint_gpx_ok_inv h
    subst hp
    rw [eraseTexts_setChildText]

mutual

theorem rewriteTree_erase (d : Dialect) (sd : PyFloat) (s : Int) (td : TDelta) :
    ∀ (e : Elem) (st : Nat × Option PyFloat) (res : Elem × (Nat × Option PyFloat)),
      rewriteTree d sd s td e st = .ok res →
      eraseTexts res.1 = eraseTexts e
  | .mk t a x cs, st, res, h => by
    by_cases ht : t = ptTag d
    · obtain ⟨p1, dd1, cs', st', p2, dd2, h1, h2, h3, hres⟩ :=
        rewriteTree_mk_pt_inv ht h
      subst hres
      have hl := rewriteList_erase d sd s td cs (st.1 + 1, dd1)
        (cs', st') h2
      have hp := rewritePoint_erase h3
      show eraseTexts p2 = eraseTexts (.mk t a x cs)
      rw [hp]
      simp only [eraseTexts]
      rw [hl]
    · obtain ⟨cs', st', h2, hres⟩ := rewriteTree_mk_npt_inv ht h
      subst hres
      simp only [eraseTexts]
      rw [rewriteList_erase d sd s td cs st (cs', st') h2]

theorem rewriteList_erase (d : Dialect) (sd : PyFloat) (s : Int) (td : TDelta) :
    ∀ (cs : List Elem) (st : Nat × Option PyFloat)
      (res : List Elem × (Nat × Option PyFloat)),
      rewriteList d sd s td cs st = .ok res →
      eraseTextsL res.1 = eraseTextsL cs
  | [], st, res, h => by
    rw [rewriteList_nil_inv h]
  | c :: rest, st, res, h => by
    obtain ⟨c', st', rest', st'', h1, h2, hres⟩ := rewriteList_cons_inv h
    subst hres
    simp only [eraseTextsL]
    rw [rewriteTree_erase d sd s td c st (c', st') h1,
      rewriteList_erase d sd s td rest st' (rest', st'') h2]

end

/-! ### `parentOfFirst` and `findAll` only look at the skeleton -/

theorem eraseTexts_mk_inv {t : String} {a : List (String × String)}
    {x : Option Txt} {cs : List Elem} {b : Elem}
    (h : eraseTexts b = eraseTexts (.mk t a x cs)) :
    b.tag = t ∧ b.attrs = a ∧ eraseTextsL b.children = eraseTextsL cs := by
  cases b with
  | mk tb ab xb csb =>
    simp only [eraseTexts, Elem.mk.injEq] at h
    exact ⟨h.1, h.2.1, h.2.2.2⟩

theorem eraseTextsL_cons_inv {c : Elem} {cs : List Elem} {l : List Elem}
    (h : eraseTextsL l = eraseTextsL (c :: cs)) :
    ∃ c2 cs2, l = c2 :: cs2 ∧ eraseTexts c2 = eraseTexts c ∧
      eraseTextsL cs2 = eraseTextsL cs := by
  cases l with
  | nil => simp [eraseTextsL] at h
  | cons c2 cs2 =>
    simp only [eraseTextsL, List.cons.injEq] at h
    exact ⟨c2, cs2, rfl, h.1, h.2⟩

theorem eraseTextsL_nil_inv {l : List Elem}
    (h : eraseTextsL l = eraseTextsL []) : l = [] := by
  cases l with
  | nil => rfl
  | cons c2 cs2 => simp [eraseTextsL] at h

mutual

theorem parentOfFirst_erase (tag : String) :
    ∀ (e1 e2 : Elem), eraseTexts e1 = eraseTexts e2 →
      Option.map eraseTexts (parentOfFirst tag e1) =
        Option.map eraseTexts (parentOfFirst tag e2)
  | .mk t a x cs, e2, h => by
    obtain ⟨htag, hattrs, hch⟩ := eraseTexts_mk_inv h.symm
    cases e2 with
    | mk t2 a2 x2 cs2 =>
      simp only [Elem.tag] at htag
      simp only [Elem.attrs] at hattrs
      simp only [Elem.children] at hch
      subst htag
      subst hattrs
      by_cases ht : t2 = tag
      · simp [parentOfFirst, ht]
      · simp only [parentOfFirst, if_neg ht]
        exact parentAux_erase tag cs cs2 hch.symm _ _ h

theorem parentAux_erase (tag : String) :
    ∀ (cs1 cs2 : List Elem), eraseTextsL cs1 = eraseTextsL cs2 →
      ∀ (par1 par2 : Elem), eraseTexts par1 = eraseTexts par2 →
        Option.map eraseTexts (parentAux tag par1 cs1) =
          Option.map eraseTexts (parentAux tag par2 cs2)
  | [], cs2, h, par1, par2, hpar => by
    have h2 := eraseTextsL_nil_inv h.symm
    subst h2
    rfl
  | c :: rest, cs2, h, par1, par2, hpar => by
    obtain ⟨c2, rest2, hcs2, hc, hrest⟩ := eraseTextsL_cons_inv h.symm
    subst hcs2
    have htag : c.tag = c2.tag := by
      cases c with
      | mk tc ac xc cc =>
        have := eraseTexts_mk_inv hc
        simp only [Elem.tag]
        exact this.1.symm
    by_cases hct : c.tag = tag
    · simp only [parentAux, if_pos hct, if_pos (htag ▸ hct), Option.map]
      rw [hpar]
    · have hct2 : ¬c2.tag = tag := by rw [← htag]; exact hct
      simp only [parentAux, if_neg hct, if_neg hct2]
      have hrec := parentOfFirst_erase tag c c2 hc.symm
      cases hpc : parentOfFirst tag c with
      | some pp =>
        rw [hpc] at hrec
        cases hpc2 : parentOfFirst tag c2 with
        | none => rw [hpc2] at hrec; simp at hrec
        | some pp2 =>
          rw [hpc2] at hrec
          simpa using hrec
      | none =>
        rw [hpc] at hrec
        cases hpc2 : parentOfFirst tag c2 with
        | some pp2 => rw [hpc2] at hrec; simp at hrec
        | none =>
          exact parentAux_erase tag rest rest2 hrest.symm par1 par2 hpar

end

/-! ### A successful run certifies every point of the whole document -/

mutual

theorem rewriteTree_allwf (d : Dialect) (sd : PyFloat) (s : Int) (td : TDelta) :
    ∀ (e : Elem) (st : Nat × Option PyFloat) (res : Elem × (Nat × Option PyFloat)),
      rewriteTree d sd s td e st = .ok res →
      ∀ p ∈ findAll (ptTag d) e, wfPoint d p = true
  | .mk t a x cs, st, res, h => by
    by_cases ht : t = ptTag d
    · obtain ⟨p1, dd1, cs', st', p2, dd2, h1, h2, h3, hres⟩ :=
        rewriteTree_mk_pt_inv ht h
      intro p hp
      simp only [findAll, if_pos ht] at hp
      rcases List.mem_append.mp hp with h0 | h0
      · have hpe : p = .mk t a x cs := by simpa using h0
        subst hpe
        exact rewritePoint_ok_wf h1
      · exact rewriteList_allwf d sd s td cs (st.1 + 1, dd1)
          (cs', st') h2 p h0
    · obtain ⟨cs', st', h2, hres⟩ := rewriteTree_mk_npt_inv ht h
      intro p hp
      simp only [findAll, if_neg ht, List.nil_append] at hp
      exact rewriteList_allwf d sd s td cs st (cs', st') h2 p hp

theorem rewriteList_allwf (d : Dialect) (sd : PyFloat) (s : Int) (td : TDelta) :
    ∀ (cs : List Elem) (st : Nat × Option PyFloat)
      (res : List Elem × (Nat × Option PyFloat)),
      rewriteList d sd s td cs st = .ok res →
      ∀ p ∈ findAllL (ptTag d) cs, wfPoint d p = true
  | [], st, res, h => by
    intro p hp
    simp [findAllL] at hp
  | c :: rest, st, res, h => by
    obtain ⟨c', st', rest', st'', h1, h2, hres⟩ := rewriteList_cons_inv h
    intro p hp
    simp only [findAllL] at hp
    rcases List.mem_append.mp hp with h0 | h0
    · exact rewriteTree_allwf d sd s td c st (c', st') h1 p h0
    · exact rewriteList_allwf d sd s td rest st' (rest', st'') h2 p h0

end

theorem run_ok_inv {d : Dialect} {s e : Int} {sdArg : Option PyFloat}
    {tree out : Elem} (h : run d s e sdArg tree = .ok out) :
    ∃ root' st2,
      rewriteTree d (resolveStartDist sdArg) s
        (timeDelta s e (findAll (ptTag d) (stripNS tree)).length)
        (stripNS tree) (0, none) = .ok (root', st2) ∧
      parentOfFirst (ptTag d) root' = some out := by
  cases hfa : findAll (ptTag d) (stripNS tree) with
  | nil => simp [run, hfa] at h
  | cons p ps =>
    simp only [run, hfa, List.length_cons] at h
    simp only [hfa, List.length_cons]
    cases hrt : rewriteTree d (resolveStartDist sdArg) s
        (timeDelta s e (ps.length + 1)) (stripNS tree) (0, none) with
    | error er => simp [hrt] at h
    | ok pr =>
      obtain ⟨root', st2⟩ := pr
      simp only [hrt] at h
      cases hpf : parentOfFirst (ptTag d) root' with
      | none => simp [hpf] at h
      | some track =>
        simp only [hpf, Except.ok.injEq] at h
        exact ⟨root', st2, rfl, by rw [← h]; exact hpf⟩

/-- C7 (amended).  The extraction is document-wide, not first-segment-only:
the `xpath` query collects every matching trackpoint of the document (see
the counterexample for the divergence from the claim), a successful run
implies every matching point anywhere in the document was read and had the
expected fields, and the time step is divided by the total document-wide
count.  The output half of the claim stands: the written element is the
parent container of the first point — same tag, attributes and element
skeleton (only texts below it were rewritten) — not the full enclosing
document. -/
theorem claim_C7 {d : Dialect} {s e : Int} {sdArg : Option PyFloat}
    {tree out : Elem} (h : run d s e sdArg tree = .ok out) :
    (∃ par, parentOfFirst (ptTag d) (stripNS tree) = some par ∧
      eraseTexts out = eraseTexts par) ∧
    ∀ p ∈ findAll (ptTag d) (stripNS tree), wfPoint d p = true := by
  obtain ⟨root', st2, hrt, hpf⟩ := run_ok_inv h
  have herase : eraseTexts root' = eraseTexts (stripNS tree) :=
    rewriteTree_erase d (resolveStartDist sdArg) s
      (timeDelta s e (findAll (ptTag d) (stripNS tree)).length)
      (stripNS tree) (0, none) (root', st2) hrt
  have hmap := parentOfFirst_erase (ptTag d) root' (stripNS tree) herase
  rw [hpf] at hmap
  refine ⟨?_, rewriteTree_allwf d (resolveStartDist sdArg) s
    (timeDelta s e (findAll (ptTag d) (stripNS tree)).length)
    (stripNS tree) (0, none) (root', st2) hrt⟩
  cases hpf2 : parentOfFirst (ptTag d) (stripNS tree) with
  | none => rw [hpf2] at hmap; simp at hmap
  | some par =>
    rw [hpf2] at hmap
    exact ⟨par, rfl, by simpa using hmap⟩

set_option exponentiation.threshold 1200 in
set_option maxRecDepth 8000 in
/-- C7, witness: on the single-track course the output is (a text-rewrite
of) the `Track` container of the first point. -/
theorem claim_C7_witness :
    ∃ par, parentOfFirst (ptTag .tcx) (stripNS plainDoc) = some par ∧
      eraseTexts plainTrackOut = eraseTexts par :=
  (@claim_C7 .tcx 0 10000000 (some (.finite 351)) plainDoc plainTrackOut
    (by with_unfolding_all rfl)).1

set_option exponentiation.threshold 1200 in
set_option maxRecDepth 8000 in
/-- C7, counterexample to the claim as stated: on a document with two
tracks the code's extraction (`//Trackpoint` over the whole document)
returns 3 points, while the points of the first track/segment found are
only 2; moreover the run divides the time interval by the document-wide
count: the output (the first track) carries rendered seconds `[0, 5]` over
a `[0s, 10s]` run — its last point does not receive the end time, which
first-segment-only extraction would have given it. -/
theorem claim_C7_counterexample :
    (findAll (ptTag .tcx) (stripNS twoTrackDoc)).length = 3 ∧
    (specFirstSegmentPoints .tcx twoTrackDoc).map List.length = some 2 ∧
    (3 : Nat) ≠ 2 ∧
    (run .tcx 0 10000000 none twoTrackDoc).map
      (fun tr => (findAllL (ptTag .tcx) tr.children).map (timeSecOf .tcx)) =
      .ok [some 0, some 5] ∧
    renderSec 10000000 = 10 ∧
    (some (5 : Int)) ≠ some 10 := by
  refine ⟨by decide, by decide, by decide, by with_unfolding_all decide,
    by decide, by decide⟩

end TcxInterp
